import Mathlib

/-!
# Verification of the ISO 8583 parser playground's decoding engine

Shallow embedding of `src/parser.ts` (the decoding engine) and of the
bitmap-building helpers of the preset generator (`src/unnamed/part_000`,
`buildBitmap` / `buildDualBitmap`), together with proofs settling the
frozen claims about the natural-language specification.

Modelling conventions:
* JS strings become `List Char`; `String.prototype.substring(a, b)` becomes
  `jsSubstring` (clamping `Nat` subtraction mirrors JS's clamping of
  negative indices at the call sites, which all satisfy `a ≤ b`).
* JS numbers at the call sites are naturals (`Nat`); `parseInt(s, 10)` and
  `parseInt(s, 16)` are modelled by `jsParseIntDec` / `jsParseIntHex2`,
  restricted to the shapes of string the source ever passes them
  (see the doc comments on those definitions).
* The external field-specification table `FIELD_SPECS` and the MTI digit
  tables live in `fieldSpecs.ts`, which is not part of the sources under
  `src/`; both are passed as parameters (`Nat → Option FieldSpec`,
  `MTITables`), exactly matching the spec's description of them as
  read-only external collaborators.
* Error messages are interpolated strings in the source.  The final
  success computation tests `message.includes('No spec')` and
  `message.includes('unparsed')`; inspection of every `errors.push` site
  shows that the first matches exactly the "No spec for DE n. Skipping."
  errors and the second exactly the trailing
  "… unparsed hex characters remaining after field parsing." error (no
  interpolated datum can introduce those substrings).  We therefore model
  the message as a structured `ErrKind`; `errExcluded` implements the two
  `includes` tests.
-/

namespace ISO8583

/-- JS `\s` whitespace, restricted to the ASCII range (the claims and all
concrete inputs only involve ASCII; the source regex `/[\s\n\r]/g`
additionally strips Unicode spaces, which never occur here). -/
def isJsSpace (c : Char) : Bool :=
  c = ' ' || c = '\t' || c = '\n' || c = '\r' || c = '\x0b' || c = '\x0c'

/-- The character class of `/^[0-9A-F]+$/i`. -/
def isHexChar (c : Char) : Bool :=
  ('0' ≤ c && c ≤ '9') || ('A' ≤ c && c ≤ 'F') || ('a' ≤ c && c ≤ 'f')

/-- Value of a single hex digit, `none` on a non-hex character
(JS `parseInt(h, 16)` on one character yields `NaN` there). -/
def hexDigitVal (c : Char) : Option Nat :=
  if '0' ≤ c && c ≤ '9' then some (c.toNat - 48)
  else if 'A' ≤ c && c ≤ 'F' then some (c.toNat - 55)
  else if 'a' ≤ c && c ≤ 'f' then some (c.toNat - 87)
  else none

/-- `s.substring(a, b)` for the call sites of the source, all of which
satisfy `a ≤ b`; `Nat` subtraction mirrors JS's clamping of negative
start indices to `0`. -/
def jsSubstring (s : List Char) (a b : Nat) : List Char :=
  (s.drop a).take (b - a)

/-- `v.toString(2).padStart(4, '0')` for `v ≤ 15`: the four binary digits
of `v`, most significant first. -/
def bits4 (v : Nat) : List Char :=
  [if v / 8 % 2 = 1 then '1' else '0',
   if v / 4 % 2 = 1 then '1' else '0',
   if v / 2 % 2 = 1 then '1' else '0',
   if v % 2 = 1 then '1' else '0']

/-- `hexToBinary` of `parser.ts`: each hex character contributes its 4-bit
binary representation.  On a non-hex character JS produces the literal
text `"0NaN"` (`"NaN".padStart(4, '0')`); the function is only reached on
validated hex, but we keep the branch for totality. -/
def hexToBinary (hex : List Char) : List Char :=
  hex.flatMap fun h =>
    match hexDigitVal h with
    | some v => bits4 v
    | none => ['0', 'N', 'a', 'N']

/-- JS `parseInt(s, 16)` restricted to fragments of length ≤ 2, exactly
the shape `hexToAscii` passes it: optional leading whitespace or sign,
the `0x`/`0X` prefix, then the longest hex-digit run; `none` is `NaN`. -/
def jsParseIntHex2 : List Char → Option Int
  | [] => none
  | [a] => (hexDigitVal a).map Int.ofNat
  | [a, b] =>
    if isJsSpace a then (hexDigitVal b).map Int.ofNat
    else if a = '+' then (hexDigitVal b).map Int.ofNat
    else if a = '-' then (hexDigitVal b).map fun v => -(Int.ofNat v)
    else if a = '0' && (b = 'x' || b = 'X') then none
    else
      match hexDigitVal a, hexDigitVal b with
      | some va, some vb => some (Int.ofNat (16 * va + vb))
      | some va, none => some (Int.ofNat va)
      | none, _ => none
  | _ :: _ :: _ :: _ => none

/-- One output character of `hexToAscii`: printable byte values become the
character, everything else (including `NaN` and negatives) becomes `'.'`. -/
def asciiCharOf (o : Option Int) : Char :=
  match o with
  | some v => if 32 ≤ v ∧ v ≤ 126 then Char.ofNat v.toNat else '.'
  | none => '.'

/-- `hexToAscii` of `parser.ts`: consume two hex characters per output
character (one character at an odd tail). -/
def hexToAscii : List Char → List Char
  | [] => []
  | [a] => [asciiCharOf (jsParseIntHex2 [a])]
  | a :: b :: rest => asciiCharOf (jsParseIntHex2 [a, b]) :: hexToAscii rest

/-- JS `parseInt(s, 10)` restricted to the strings the source passes it:
substrings of validated hex (characters `0-9A-F`, no sign, no space).
The result is the value of the longest leading run of decimal digits,
`none` (`NaN`) when the first character is not a decimal digit.  Note
that JS accepts a partial parse: `parseInt("4F", 10) = 4`. -/
def jsParseIntDec (l : List Char) : Option Nat :=
  match l with
  | [] => none
  | c :: _ =>
    if c.isDigit then some (go l 0) else none
where
  go : List Char → Nat → Nat
    | [], acc => acc
    | c :: rest, acc =>
      if c.isDigit then go rest (10 * acc + (c.toNat - 48)) else acc

/-- Modelled from the spec: the four MTI digit lookup tables plus the
sparse full-MTI description table (spec §2, §4.1, §6).  They live in the
external data module `fieldSpecs.ts`, which is absent from `src/`; the
decoder consumes them only through lookups that may miss. -/
structure MTITables where
  version : Char → Option String
  msgClass : Char → Option String
  mfunc : Char → Option String
  origin : Char → Option String
  descriptions : List Char → Option String

/-- One digit of an `MTIInfo`: the digit (absent when the raw MTI is
shorter than four characters, like the JS `undefined`) and its label. -/
structure MTICode where
  code : Option Char
  label : String
  deriving DecidableEq, Repr

/-- `MTIInfo` of `parser.ts`. -/
structure MTIInfo where
  raw : List Char
  version : MTICode
  messageClass : MTICode
  mfunction : MTICode
  origin : MTICode
  description : String
  deriving DecidableEq, Repr

/-- The `/^\d{4}$/` test. -/
def fourDigits (l : List Char) : Bool :=
  l.length == 4 && l.all Char.isDigit

/-- Resolve one MTI digit against its table, `"Unknown"` on a miss (also
when the digit itself is missing, as `TABLE[undefined]` is `undefined`). -/
def mkMTICode (table : Char → Option String) (c : Option Char) : MTICode :=
  { code := c, label := (c.bind table).getD "Unknown" }

/-- `decodeMTI` of `parser.ts`. -/
def decodeMTI (t : MTITables) (mtiHex : List Char) : MTIInfo :=
  let step1 :=
    if 8 ≤ mtiHex.length && fourDigits (hexToAscii (mtiHex.take 8)) then
      hexToAscii (mtiHex.take 8)
    else mtiHex
  let mtiStr :=
    if step1.length = 4 && step1.all Char.isDigit then step1
    else if 4 ≤ step1.length then step1.take 4
    else step1
  { raw := mtiStr
    version := mkMTICode t.version (mtiStr.get? 0)
    messageClass := mkMTICode t.msgClass (mtiStr.get? 1)
    mfunction := mkMTICode t.mfunc (mtiStr.get? 2)
    origin := mkMTICode t.origin (mtiStr.get? 3)
    description := (t.descriptions mtiStr).getD ("Message Type " ++ String.mk mtiStr) }

/-- The 1-based positions of `'1'` characters, accumulating from index
`k`; shallow embedding of the index loop in `decodeBitmap`. -/
def onesPositions : List Char → Nat → List Nat
  | [], _ => []
  | c :: rest, k =>
    (if c = '1' then [k + 1] else []) ++ onesPositions rest (k + 1)

/-- Result type of `decodeBitmap`. -/
structure DecodedBitmap where
  activeFields : List Nat
  binary : List Char
  deriving DecidableEq, Repr

/-- `decodeBitmap` of `parser.ts`. -/
def decodeBitmap (hexStr : List Char) : DecodedBitmap :=
  let binary := hexToBinary hexStr
  { activeFields := onesPositions binary 0, binary := binary }

/-- One entry of the external field-specification table (`FIELD_SPECS` in
`fieldSpecs.ts`, absent from `src/`).  Shape as in spec §3: format tag,
data-type tag, maximum length, category, display name; the parser
branches on the literal strings `"FIXED"`, `"LLVAR"`, `"LLLVAR"` and
`"b"`, `"n"`, `"x+n"`, so both tags are kept as strings. -/
structure FieldSpec where
  name : String
  format : String
  type : String
  maxLength : Nat
  category : String
  description : Option String
  deriving DecidableEq, Repr

/-- Structured stand-in for the interpolated error message strings of
`parser.ts`; one constructor per `errors.push` site:
* `inputTooShort` — "Input too short. Minimum 4 characters for MTI."
* `invalidChars` — "Invalid characters detected. Only hex characters (0-9, A-F) are allowed."
* `hexTooShortPrimary` — "Hex too short for primary bitmap (need 16 more hex chars / 8 bytes)."
* `secondaryTooShort` — "Bit 1 indicates secondary bitmap but hex is too short."
* `noSpec de` — "No spec for DE n. Skipping."
* `ranOut de` — "Ran out of data at DE n."
* `fixedTrunc de expected remain` — "DE n: Expected k hex chars but only m remain."
* `llvarPrefixShort de` — "DE n: Not enough data for LLVAR length prefix."
* `invalidLLVARLen de lenStr` — "DE n: Invalid LLVAR length s (max M)."
* `lllvarPrefixShort de` — "DE n: Not enough data for LLLVAR length prefix (need 4 hex chars)."
* `invalidLLLVARLen de lenStr` — "DE n: Invalid LLLVAR length s."
* `dataTrunc de expected remain` — "DE n: Expected k hex chars for data but only m remain."
* `trailingUnparsed count` — "m unparsed hex characters remaining after field parsing."
-/
inductive ErrKind where
  | inputTooShort
  | invalidChars
  | hexTooShortPrimary
  | secondaryTooShort
  | noSpec (de : Nat)
  | ranOut (de : Nat)
  | fixedTrunc (de : Nat) (expected : Nat) (remain : Nat)
  | llvarPrefixShort (de : Nat)
  | invalidLLVARLen (de : Nat) (lenStr : List Char)
  | lllvarPrefixShort (de : Nat)
  | invalidLLLVARLen (de : Nat) (lenStr : List Char)
  | dataTrunc (de : Nat) (expected : Nat) (remain : Nat)
  | trailingUnparsed (count : Nat)
  deriving DecidableEq, Repr

/-- `ParseError` of `parser.ts`. -/
structure ParseError where
  kind : ErrKind
  position : Option Nat
  field : Option Nat
  deriving DecidableEq, Repr

/-- The test `e.message.includes('No spec') || e.message.includes('unparsed')`
used (negated) by the final success computation; see the message table on
`ErrKind` for why it is exactly a match on these two constructors. -/
def errExcluded (e : ParseError) : Bool :=
  match e.kind with
  | .noSpec _ => true
  | .trailingUnparsed _ => true
  | _ => false

/-- `ParsedField` of `parser.ts`. -/
structure ParsedField where
  de : Nat
  name : String
  rawHex : List Char
  decodedValue : List Char
  length : Nat
  format : String
  type : String
  category : String
  startPos : Nat
  endPos : Nat
  description : Option String
  deriving DecidableEq, Repr

/-- `BitmapInfo` of `parser.ts`. -/
structure BitmapInfo where
  rawHex : List Char
  binary : List Char
  activeFields : List Nat
  hasSecondary : Bool
  startPos : Nat
  endPos : Nat
  deriving DecidableEq, Repr

/-- `HexSegment` of `parser.ts`. -/
structure HexSegment where
  hex : List Char
  label : String
  category : String
  startPos : Nat
  endPos : Nat
  de : Option Nat
  deriving DecidableEq, Repr

/-- `ParseResult` of `parser.ts`. -/
structure ParseResult where
  success : Bool
  mti : Option MTIInfo
  primaryBitmap : Option BitmapInfo
  secondaryBitmap : Option BitmapInfo
  fields : List ParsedField
  errors : List ParseError
  hexSegments : List HexSegment
  deriving DecidableEq, Repr

/-- The mutable state of the data-element loop of `parseISO8583`: the
cursor plus the (append-only) `errors`, `fields` and `hexSegments`
arrays. -/
structure LoopSt where
  pos : Nat
  errors : List ParseError
  fields : List ParsedField
  segments : List HexSegment
  deriving DecidableEq, Repr

/-- Hex-character count of a FIXED field (lines 257-272 of `parser.ts`):
binary is `maxLength` bytes, numeric (`"n"`/`"x+n"`) is `maxLength`
nibbles padded to a whole byte, everything else is one byte per
character. -/
def fixedHexLen (spec : FieldSpec) : Nat :=
  if spec.type = "b" then spec.maxLength * 2
  else if spec.type = "n" || spec.type = "x+n" then
    (if spec.maxLength % 2 ≠ 0 then spec.maxLength + 1 else spec.maxLength)
  else spec.maxLength * 2

/-- Hex-character count of the data portion of an LLVAR/LLLVAR field with
declared length `dataLen` (lines 309-314 / 347-352 of `parser.ts`). -/
def varHexLen (ty : String) (dataLen : Nat) : Nat :=
  if ty = "n" then (if dataLen % 2 = 0 then dataLen else dataLen + 1)
  else dataLen * 2

/-- Decoded value of a FIXED field (lines 285-291): numeric and binary
stay as raw hex, text types go through `hexToAscii`. -/
def fixedValue (spec : FieldSpec) (fieldHex : List Char) : List Char :=
  if spec.type = "n" || spec.type = "x+n" then fieldHex
  else if spec.type = "b" then fieldHex
  else hexToAscii fieldHex

/-- Build the `ParsedField` pushed at lines 375-387. -/
def mkField (fieldNum : Nat) (spec : FieldSpec) (fieldHex fieldValue : List Char)
    (fieldLength startP endP : Nat) : ParsedField :=
  { de := fieldNum, name := spec.name, rawHex := fieldHex,
    decodedValue := fieldValue, length := fieldLength,
    format := spec.format, type := spec.type, category := spec.category,
    startPos := startP, endPos := endP, description := spec.description }

/-- Build the `HexSegment` pushed at lines 389-396. -/
def mkFieldSeg (fieldNum : Nat) (spec : FieldSpec) (fieldHex : List Char)
    (startP endP : Nat) : HexSegment :=
  { hex := fieldHex, label := "DE " ++ Nat.repr fieldNum ++ ": " ++ spec.name,
    category := spec.category, startPos := startP, endPos := endP,
    de := some fieldNum }

/-- One iteration of the field loop (lines 237-397 of `parser.ts`) for
field number `fieldNum`.  Returns the updated state together with `true`
when the loop continues with the next active field and `false` on
`break`. -/
def fieldStep (specs : Nat → Option FieldSpec) (hex : List Char)
    (fieldNum : Nat) (st : LoopSt) : LoopSt × Bool :=
  match specs fieldNum with
  | none =>
    ({ st with errors := st.errors ++ [⟨.noSpec fieldNum, none, some fieldNum⟩] }, true)
  | some spec =>
    if hex.length ≤ st.pos then
      ({ st with errors := st.errors ++ [⟨.ranOut fieldNum, some st.pos, some fieldNum⟩] }, false)
    else if spec.format = "FIXED" then
      let hexLen := fixedHexLen spec
      let trunc : Bool := hex.length < st.pos + hexLen
      let fieldHex := if trunc then hex.drop st.pos else jsSubstring hex st.pos (st.pos + hexLen)
      let pos2 := if trunc then hex.length else st.pos + hexLen
      let errs := if trunc then
          [⟨.fixedTrunc fieldNum hexLen (hex.length - st.pos), some st.pos, some fieldNum⟩]
        else []
      let fieldValue := fixedValue spec fieldHex
      ({ pos := pos2,
         errors := st.errors ++ errs,
         fields := st.fields ++ [mkField fieldNum spec fieldHex fieldValue (hexLen / 2) st.pos pos2],
         segments := st.segments ++ [mkFieldSeg fieldNum spec fieldHex st.pos pos2] }, true)
    else if spec.format = "LLVAR" then
      if hex.length < st.pos + 2 then
        ({ st with errors := st.errors ++ [⟨.llvarPrefixShort fieldNum, some st.pos, some fieldNum⟩] }, false)
      else
        let lenStr := jsSubstring hex st.pos (st.pos + 2)
        let pos1 := st.pos + 2
        match jsParseIntDec lenStr with
        | none =>
          ({ st with
              pos := pos1,
              errors := st.errors ++ [⟨.invalidLLVARLen fieldNum lenStr, some st.pos, some fieldNum⟩] }, true)
        | some dataLen =>
          if spec.maxLength < dataLen then
            ({ st with
                pos := pos1,
                errors := st.errors ++ [⟨.invalidLLVARLen fieldNum lenStr, some st.pos, some fieldNum⟩] }, true)
          else
            let hexLen := varHexLen spec.type dataLen
            let trunc : Bool := hex.length < pos1 + hexLen
            let fieldHex := if trunc then lenStr ++ hex.drop pos1
              else lenStr ++ jsSubstring hex pos1 (pos1 + hexLen)
            let pos2 := if trunc then hex.length else pos1 + hexLen
            let errs := if trunc then
                [⟨.dataTrunc fieldNum hexLen (hex.length - pos1), some pos1, some fieldNum⟩]
              else []
            let dataHex := jsSubstring hex (pos2 - hexLen) pos2
            let fieldValue := if spec.type = "n" then dataHex else hexToAscii dataHex
            ({ pos := pos2,
               errors := st.errors ++ errs,
               fields := st.fields ++ [mkField fieldNum spec fieldHex fieldValue dataLen st.pos pos2],
               segments := st.segments ++ [mkFieldSeg fieldNum spec fieldHex st.pos pos2] }, true)
    else if spec.format = "LLLVAR" then
      if hex.length < st.pos + 4 then
        ({ st with errors := st.errors ++ [⟨.lllvarPrefixShort fieldNum, some st.pos, some fieldNum⟩] }, false)
      else
        let lenStr := jsSubstring hex st.pos (st.pos + 4)
        let pos1 := st.pos + 4
        match jsParseIntDec lenStr with
        | none =>
          ({ st with
              pos := pos1,
              errors := st.errors ++ [⟨.invalidLLLVARLen fieldNum lenStr, some st.pos, some fieldNum⟩] }, true)
        | some dataLen =>
          if spec.maxLength < dataLen then
            ({ st with
                pos := pos1,
                errors := st.errors ++ [⟨.invalidLLLVARLen fieldNum lenStr, some st.pos, some fieldNum⟩] }, true)
          else
            let hexLen := varHexLen spec.type dataLen
            let trunc : Bool := hex.length < pos1 + hexLen
            let fieldHex := if trunc then lenStr ++ hex.drop pos1
              else lenStr ++ jsSubstring hex pos1 (pos1 + hexLen)
            let pos2 := if trunc then hex.length else pos1 + hexLen
            let errs := if trunc then
                [⟨.dataTrunc fieldNum hexLen (hex.length - pos1), some pos1, some fieldNum⟩]
              else []
            let dataHex := jsSubstring hex (pos2 - hexLen) pos2
            let fieldValue := if spec.type = "n" then dataHex else hexToAscii dataHex
            ({ pos := pos2,
               errors := st.errors ++ errs,
               fields := st.fields ++ [mkField fieldNum spec fieldHex fieldValue dataLen st.pos pos2],
               segments := st.segments ++ [mkFieldSeg fieldNum spec fieldHex st.pos pos2] }, true)
    else
      -- A format tag other than FIXED/LLVAR/LLLVAR falls through every
      -- branch of the source and still pushes an (empty) field and segment.
      ({ st with
         fields := st.fields ++ [mkField fieldNum spec [] [] 0 st.pos st.pos],
         segments := st.segments ++ [mkFieldSeg fieldNum spec [] st.pos st.pos] }, true)

/-- The field loop of `parseISO8583` (lines 237-397): iterate `fieldStep`
over the active field numbers, stopping early on `break`. -/
def fieldLoop (specs : Nat → Option FieldSpec) (hex : List Char) :
    List Nat → LoopSt → LoopSt
  | [], st => st
  | fieldNum :: rest, st =>
    match fieldStep specs hex fieldNum st with
    | (st', true) => fieldLoop specs hex rest st'
    | (st', false) => st'

/-- Trailing-data check and result assembly (lines 399-421). -/
def finalize (hex : List Char) (mti : Option MTIInfo)
    (pb sb : Option BitmapInfo) (st : LoopSt) : ParseResult :=
  let st' :=
    if st.pos < hex.length then
      { st with
        errors := st.errors ++ [⟨.trailingUnparsed (hex.length - st.pos), some st.pos, none⟩],
        segments := st.segments ++
          [{ hex := hex.drop st.pos, label := "Unparsed Data", category := "error",
             startPos := st.pos, endPos := hex.length, de := none }] }
    else st
  { success := (st'.errors.filter fun e => !errExcluded e).isEmpty,
    mti := mti, primaryBitmap := pb, secondaryBitmap := sb,
    fields := st'.fields, errors := st'.errors, hexSegments := st'.segments }

/-- Normalization of the raw input (line 133): strip whitespace and
uppercase. -/
def normalizeHex (input : List Char) : List Char :=
  (input.filter fun c => !isJsSpace c).map Char.toUpper

/-- The failure-only result of the two fatal-precondition branches
(lines 135-158). -/
def fatalResult (k : ErrKind) : ParseResult :=
  { success := false, mti := none, primaryBitmap := none, secondaryBitmap := none,
    fields := [], errors := [⟨k, none, none⟩], hexSegments := [] }

/-- The MTI decoded from the (validated) normalized hex. -/
def mtiOf (t : MTITables) (hex : List Char) : MTIInfo :=
  decodeMTI t (jsSubstring hex 0 4)

/-- The MTI `HexSegment` (lines 165-171). -/
def mtiSegOf (t : MTITables) (hex : List Char) : HexSegment :=
  { hex := jsSubstring hex 0 4, label := "MTI: " ++ String.mk (mtiOf t hex).raw,
    category := "mti", startPos := 0, endPos := 4, de := none }

/-- The primary `BitmapInfo` (lines 186-196). -/
def primaryBitmapOf (hex : List Char) : BitmapInfo :=
  let pd := decodeBitmap (jsSubstring hex 4 20)
  { rawHex := jsSubstring hex 4 20, binary := pd.binary,
    activeFields := pd.activeFields.filter fun f => 2 ≤ f && f ≤ 64,
    hasSecondary := pd.binary.get? 0 == some '1',
    startPos := 4, endPos := 20 }

/-- The primary-bitmap `HexSegment` (lines 197-203). -/
def pbSegOf (hex : List Char) : HexSegment :=
  { hex := jsSubstring hex 4 20, label := "Primary Bitmap", category := "bitmap",
    startPos := 4, endPos := 20, de := none }

/-- The secondary `BitmapInfo` (lines 214-223). -/
def secondaryBitmapOf (hex : List Char) : BitmapInfo :=
  let sd := decodeBitmap (jsSubstring hex 20 36)
  { rawHex := jsSubstring hex 20 36, binary := sd.binary,
    activeFields := sd.activeFields.map (· + 64),
    hasSecondary := false, startPos := 20, endPos := 36 }

/-- The secondary-bitmap `HexSegment` (lines 224-230). -/
def sbSegOf (hex : List Char) : HexSegment :=
  { hex := jsSubstring hex 20 36, label := "Secondary Bitmap", category := "bitmap",
    startPos := 20, endPos := 36, de := none }

/-- The early return at lines 174-184: note the hard-coded
`success: true`. -/
def shortForBitmapResult (t : MTITables) (hex : List Char) : ParseResult :=
  { success := true, mti := some (mtiOf t hex), primaryBitmap := none,
    secondaryBitmap := none, fields := [],
    errors := [⟨.hexTooShortPrimary, some 4, none⟩],
    hexSegments := [mtiSegOf t hex] }

/-- The body of `parseISO8583` after normalization and the two fatal
precondition checks (lines 160-421). -/
def parseMain (specs : Nat → Option FieldSpec) (t : MTITables)
    (hex : List Char) : ParseResult :=
  if hex.length < 20 then shortForBitmapResult t hex
  else if (primaryBitmapOf hex).hasSecondary then
    if hex.length < 36 then
      finalize hex (some (mtiOf t hex)) (some (primaryBitmapOf hex)) none
        (fieldLoop specs hex (primaryBitmapOf hex).activeFields
          ⟨20, [⟨.secondaryTooShort, some 20, none⟩], [],
           [mtiSegOf t hex, pbSegOf hex]⟩)
    else
      finalize hex (some (mtiOf t hex)) (some (primaryBitmapOf hex))
        (some (secondaryBitmapOf hex))
        (fieldLoop specs hex
          ((primaryBitmapOf hex).activeFields ++ (secondaryBitmapOf hex).activeFields)
          ⟨36, [], [], [mtiSegOf t hex, pbSegOf hex, sbSegOf hex]⟩)
  else
    finalize hex (some (mtiOf t hex)) (some (primaryBitmapOf hex)) none
      (fieldLoop specs hex (primaryBitmapOf hex).activeFields
        ⟨20, [], [], [mtiSegOf t hex, pbSegOf hex]⟩)

/-- `parseISO8583` of `parser.ts`, parameterized by the external
`FIELD_SPECS` table and the MTI digit tables. -/
def parseISO8583 (specs : Nat → Option FieldSpec) (t : MTITables)
    (input : List Char) : ParseResult :=
  let hex := normalizeHex input
  if hex.length < 4 then fatalResult .inputTooShort
  else if !(hex.all isHexChar) then fatalResult .invalidChars
  else parseMain specs t hex

/-! ## Preset builders (`src/unnamed/part_000`) -/

/-- The byte-packing fold `byte = (byte << 1) | bits[i*8+b]` of
`buildBitmap`, most significant bit first. -/
def ofBits (l : List Bool) : Nat :=
  l.foldl (fun a x => 2 * a + cond x 1 0) 0

/-- Upper-case hex digit for `v ≤ 15`. -/
def hexDigitCharUpper (v : Nat) : Char :=
  if v < 10 then Char.ofNat (48 + v) else Char.ofNat (55 + v)

/-- `byte.toString(16).padStart(2, '0').toUpperCase()` for `byte < 256`. -/
def byteHex (b : Nat) : List Char :=
  [hexDigitCharUpper (b / 16), hexDigitCharUpper (b % 16)]

/-- Pack 64 bits (given as a predicate on positions `0..63`) into 16
upper-case hex characters, 8 bits per byte, MSB first — the common
packing loop of `buildBitmap` and `buildDualBitmap`. -/
def packBitmapHex (bit : Nat → Bool) : List Char :=
  (List.range 8).flatMap fun i =>
    byteHex (ofBits ((List.range 8).map fun b => bit (8 * i + b)))

/-- `buildBitmap` of the preset module: bit `f-1` is set for every listed
field `f` with `1 ≤ f ≤ 64` (out-of-range writes on the `Uint8Array` are
silently ignored; the packing loop reads positions `0..63` only, and for
those `bits[i] = 1` iff `i+1` is listed). -/
def buildBitmap (fields : List Nat) : List Char :=
  packBitmapHex fun i => fields.contains (i + 1)

/-- The `primaryFields` array of `buildDualBitmap` after its conditional
`push(1)`: bit 1 is added when secondary fields exist and 1 is not
already listed. -/
def dualPrimaryFields (fields : List Nat) : List Nat :=
  if ¬(fields.filter fun f => 64 < f).isEmpty ∧
      ¬(fields.filter (· ≤ 64)).contains 1 then
    fields.filter (· ≤ 64) ++ [1]
  else fields.filter (· ≤ 64)

/-- `buildDualBitmap` of the preset module. -/
def buildDualBitmap (fields : List Nat) : List Char :=
  if (fields.filter fun f => 64 < f).isEmpty then
    buildBitmap (dualPrimaryFields fields)
  else
    buildBitmap (dualPrimaryFields fields) ++
      packBitmapHex fun i => (fields.filter fun f => 64 < f).contains (i + 65)

/-- `asciiToHex` of the preset module, for characters with code < 256. -/
def asciiToHex (s : List Char) : List Char :=
  s.flatMap fun c => byteHex c.toNat

/-! ## Concrete instances of the external tables

`fieldSpecs.ts` is not among the sources under `src/`.  The claims are
settled parametrically in the table; the concrete instances below are
used only to instantiate witnesses and counterexamples.

Modelled from the spec: the entries are the ones the spec itself
documents — DE2 is LLVAR numeric with `maxLength` 19 (spec §8,
scenario 2), DE7 is a 10-digit, DE11 a 6-digit and DE70 a 3-digit FIXED
numeric field (spec §8, scenario 1), DE3/DE4/DE41 follow the preset
builders' comments (6-digit processing code, 12-digit amount, 8-character
ANS terminal id). -/
def sampleSpecs : Nat → Option FieldSpec
  | 2 => some ⟨"Primary Account Number", "LLVAR", "n", 19, "identification", none⟩
  | 3 => some ⟨"Processing Code", "FIXED", "n", 6, "processing", none⟩
  | 4 => some ⟨"Amount, Transaction", "FIXED", "n", 12, "amount", none⟩
  | 7 => some ⟨"Transmission Date and Time", "FIXED", "n", 10, "date_time", none⟩
  | 11 => some ⟨"System Trace Audit Number", "FIXED", "n", 6, "reference", none⟩
  | 41 => some ⟨"Card Acceptor Terminal ID", "FIXED", "ans", 8, "terminal", none⟩
  | 52 => some ⟨"PIN Data", "FIXED", "b", 8, "security", none⟩
  | 70 => some ⟨"Network Management Information Code", "FIXED", "n", 3, "network", none⟩
  | _ => none

/-- Modelled from the spec: a small instance of the MTI digit tables
(spec §4.1); only used to instantiate witnesses. -/
def sampleMTITables : MTITables :=
  { version := fun c => if c = '0' then some "ISO 8583:1987" else none
    msgClass := fun c => if c = '1' then some "Authorization" else none
    mfunc := fun c => if c = '0' then some "Request" else none
    origin := fun c => if c = '0' then some "Acquirer" else none
    descriptions := fun s => if s = ['0', '1', '0', '0'] then some "Authorization Request" else none }

/-- An everywhere-empty pair of tables, for claims that do not depend on
the table contents. -/
def emptySpecs : Nat → Option FieldSpec := fun _ => none

/-- Empty MTI tables. -/
def emptyMTITables : MTITables :=
  ⟨fun _ => none, fun _ => none, fun _ => none, fun _ => none, fun _ => none⟩

/-! ## Basic unfolding lemmas -/

theorem parseISO8583_eq_parseMain (specs : Nat → Option FieldSpec) (t : MTITables)
    (input : List Char) (h1 : ¬(normalizeHex input).length < 4)
    (h2 : (normalizeHex input).all isHexChar = true) :
    parseISO8583 specs t input = parseMain specs t (normalizeHex input) := by
  simp only [parseISO8583]
  rw [if_neg h1, h2]
  simp

theorem finalize_mti (hex : List Char) (mti : Option MTIInfo)
    (pb sb : Option BitmapInfo) (st : LoopSt) :
    (finalize hex mti pb sb st).mti = mti := by
  unfold finalize
  split <;> rfl

theorem finalize_primaryBitmap (hex : List Char) (mti : Option MTIInfo)
    (pb sb : Option BitmapInfo) (st : LoopSt) :
    (finalize hex mti pb sb st).primaryBitmap = pb := by
  unfold finalize
  split <;> rfl

theorem finalize_secondaryBitmap (hex : List Char) (mti : Option MTIInfo)
    (pb sb : Option BitmapInfo) (st : LoopSt) :
    (finalize hex mti pb sb st).secondaryBitmap = sb := by
  unfold finalize
  split <;> rfl

/-! ## Claim C8 -/

/-- Claim C8 (confirmed): for every input whose normalized form is empty,
shorter than 4 characters, or contains a non-hex character, `parseISO8583`
returns a failure-only result: `success = false`, MTI and both bitmaps
absent, zero fields, zero segments, and exactly one error. -/
theorem claim8_fatal_preconditions (specs : Nat → Option FieldSpec)
    (t : MTITables) (input : List Char)
    (h : (normalizeHex input).length < 4 ∨ (normalizeHex input).all isHexChar = false) :
    (parseISO8583 specs t input).success = false ∧
    (parseISO8583 specs t input).mti = none ∧
    (parseISO8583 specs t input).primaryBitmap = none ∧
    (parseISO8583 specs t input).secondaryBitmap = none ∧
    (parseISO8583 specs t input).fields = [] ∧
    (parseISO8583 specs t input).hexSegments = [] ∧
    (parseISO8583 specs t input).errors.length = 1 := by
  have hres : parseISO8583 specs t input = fatalResult .inputTooShort ∨
      parseISO8583 specs t input = fatalResult .invalidChars := by
    by_cases h4 : (normalizeHex input).length < 4
    · left
      simp only [parseISO8583]
      rw [if_pos h4]
    · right
      rcases h with h | h
      · exact absurd h h4
      · simp only [parseISO8583]
        rw [if_neg h4, h]
        simp
  rcases hres with hres | hres <;> rw [hres] <;> exact ⟨rfl, rfl, rfl, rfl, rfl, rfl, rfl⟩

/-- Witness for C8 at the concrete inputs `"012"` (too short) and
`"0100GG"` — both evaluated on the first. -/
theorem claim8_fatal_preconditions_witness :
    ((normalizeHex ("012".toList)).length < 4 ∨
      (normalizeHex ("012".toList)).all isHexChar = false) ∧
    (parseISO8583 emptySpecs emptyMTITables ("012".toList)).success = false ∧
    (parseISO8583 emptySpecs emptyMTITables ("012".toList)).errors.length = 1 := by
  refine ⟨Or.inl (by decide), ?_, ?_⟩
  · exact (claim8_fatal_preconditions emptySpecs emptyMTITables ("012".toList)
      (Or.inl (by decide))).1
  · exact (claim8_fatal_preconditions emptySpecs emptyMTITables ("012".toList)
      (Or.inl (by decide))).2.2.2.2.2.2

/-! ## Claim C1 -/

/-- Counterexample to claim C1 as stated: the input `"00001"` normalizes
to valid hex of length 5 (at least 4, fewer than 16 hex characters after
the MTI), yet `parseISO8583` returns `overallSuccess = true` — the early
return at lines 174-184 hard-codes `success: true`, it does not classify
the insufficient-bytes-for-primary-bitmap error as affecting success. -/
theorem claim1_counterexample :
    (parseISO8583 emptySpecs emptyMTITables ("00001".toList)).success = true ∧
    (parseISO8583 emptySpecs emptyMTITables ("00001".toList)).errors.length = 1 := by
  constructor <;> rfl

/-- Claim C1 (amended): for every input whose normalized hex form is
valid hex of length at least 4 but with fewer than 16 hex characters
remaining after the 4-character MTI, `parseISO8583` returns a result with
`mti` populated, `primaryBitmap` and `secondaryBitmap` absent, exactly
one structural error, and `overallSuccess = true` (the early return
hard-codes success instead of running the error-classification
computation). -/
theorem claim1_short_for_primary_bitmap (specs : Nat → Option FieldSpec)
    (t : MTITables) (input : List Char)
    (h4 : 4 ≤ (normalizeHex input).length)
    (hhex : (normalizeHex input).all isHexChar = true)
    (hshort : (normalizeHex input).length < 20) :
    (parseISO8583 specs t input).mti = some (mtiOf t (normalizeHex input)) ∧
    (parseISO8583 specs t input).primaryBitmap = none ∧
    (parseISO8583 specs t input).secondaryBitmap = none ∧
    (parseISO8583 specs t input).errors = [⟨.hexTooShortPrimary, some 4, none⟩] ∧
    (parseISO8583 specs t input).success = true := by
  rw [parseISO8583_eq_parseMain specs t input (by omega) hhex]
  unfold parseMain
  rw [if_pos hshort]
  exact ⟨rfl, rfl, rfl, rfl, rfl⟩

/-- Witness for the amended C1 at the concrete input `"000012"`. -/
theorem claim1_short_for_primary_bitmap_witness :
    (4 ≤ (normalizeHex ("000012".toList)).length ∧
      (normalizeHex ("000012".toList)).all isHexChar = true ∧
      (normalizeHex ("000012".toList)).length < 20) ∧
    (parseISO8583 emptySpecs emptyMTITables ("000012".toList)).primaryBitmap = none ∧
    (parseISO8583 emptySpecs emptyMTITables ("000012".toList)).success = true := by
  refine ⟨⟨by decide, by decide, by decide⟩, ?_, ?_⟩
  · exact (claim1_short_for_primary_bitmap emptySpecs emptyMTITables ("000012".toList)
      (by decide) (by decide) (by decide)).2.1
  · exact (claim1_short_for_primary_bitmap emptySpecs emptyMTITables ("000012".toList)
      (by decide) (by decide) (by decide)).2.2.2.2

/-! ## Claim C9 -/

/-- Claim C9 (confirmed): `decodeMTI` is total (a Lean `def`, it never
raises): if the fragment has at least 8 characters and its first 8
characters decode as byte pairs to exactly 4 ASCII decimal digits, that
decoded text is the logical MTI; otherwise the first 4 available
characters are taken (which covers both "first 4 characters already 4
ASCII digits, used directly" and the best-effort fallback); each digit is
resolved independently with label `"Unknown"` on a table miss, and the
description defaults to `"Message Type {raw}"` when the full-MTI table
has no entry. -/
theorem claim9_decodeMTI_total_best_effort (t : MTITables) (s : List Char) :
    ((8 ≤ s.length ∧ fourDigits (hexToAscii (s.take 8)) = true →
        (decodeMTI t s).raw = hexToAscii (s.take 8)) ∧
      (¬(8 ≤ s.length ∧ fourDigits (hexToAscii (s.take 8)) = true) →
        (decodeMTI t s).raw = s.take 4)) ∧
    (((decodeMTI t s).raw.get? 0).bind t.version = none →
        (decodeMTI t s).version.label = "Unknown") ∧
    (((decodeMTI t s).raw.get? 1).bind t.msgClass = none →
        (decodeMTI t s).messageClass.label = "Unknown") ∧
    (((decodeMTI t s).raw.get? 2).bind t.mfunc = none →
        (decodeMTI t s).mfunction.label = "Unknown") ∧
    (((decodeMTI t s).raw.get? 3).bind t.origin = none →
        (decodeMTI t s).origin.label = "Unknown") ∧
    (t.descriptions (decodeMTI t s).raw = none →
        (decodeMTI t s).description = "Message Type " ++ String.mk (decodeMTI t s).raw) := by
  refine ⟨⟨?_, ?_⟩, ?_, ?_, ?_, ?_, ?_⟩
  · intro h
    have hlen : (hexToAscii (s.take 8)).length = 4 := by
      have h2 := h.2
      unfold fourDigits at h2
      simp only [Bool.and_eq_true, beq_iff_eq] at h2
      exact h2.1
    have hall : (hexToAscii (s.take 8)).all Char.isDigit = true := by
      have h2 := h.2
      unfold fourDigits at h2
      simp only [Bool.and_eq_true, beq_iff_eq] at h2
      exact h2.2
    simp [decodeMTI, h.1, h.2, hlen, hall]
  · intro h
    unfold decodeMTI
    have hcond : (decide (8 ≤ s.length) && fourDigits (hexToAscii (s.take 8))) = false := by
      rcases Decidable.not_and_iff_or_not.mp h with h8 | hfd
      · simp [h8]
      · simp [Bool.eq_false_iff.mpr hfd]
    simp only [hcond, Bool.false_eq_true, if_false]
    by_cases hd : s.length = 4 ∧ s.all Char.isDigit = true
    · have : s.take 4 = s := List.take_of_length_le (by omega)
      simp [hd.1, hd.2, this]
    · have hcond2 : (decide (s.length = 4) && s.all Char.isDigit) = false := by
        rcases Decidable.not_and_iff_or_not.mp hd with h1 | h2
        · simp [h1]
        · simp [Bool.eq_false_iff.mpr h2]
      simp only [hcond2, Bool.false_eq_true, if_false]
      by_cases h4 : 4 ≤ s.length
      · simp [h4]
      · have : s.take 4 = s := List.take_of_length_le (by omega)
        simp [h4, this]
  · intro h
    show ((((decodeMTI t s).raw.get? 0).bind t.version).getD "Unknown") = "Unknown"
    rw [h]
    rfl
  · intro h
    show ((((decodeMTI t s).raw.get? 1).bind t.msgClass).getD "Unknown") = "Unknown"
    rw [h]
    rfl
  · intro h
    show ((((decodeMTI t s).raw.get? 2).bind t.mfunc).getD "Unknown") = "Unknown"
    rw [h]
    rfl
  · intro h
    show ((((decodeMTI t s).raw.get? 3).bind t.origin).getD "Unknown") = "Unknown"
    rw [h]
    rfl
  · intro h
    show (((t.descriptions (decodeMTI t s).raw)).getD
        ("Message Type " ++ String.mk (decodeMTI t s).raw)) =
        "Message Type " ++ String.mk (decodeMTI t s).raw
    rw [h]
    rfl

/-- Witness for C9: the byte-encoded MTI `"30313030"` decodes to `"0100"`
through the 8-character branch, and a fragment with no table entries
gets `"Unknown"` labels. -/
theorem claim9_decodeMTI_witness :
    (decodeMTI sampleMTITables ("30313030".toList)).raw = ['0', '1', '0', '0'] ∧
    (decodeMTI emptyMTITables ("ABCD".toList)).version.label = "Unknown" := by
  constructor
  · have h := (claim9_decodeMTI_total_best_effort sampleMTITables ("30313030".toList)).1.1
      ⟨by decide, by decide⟩
    rw [h]
    decide
  · exact (claim9_decodeMTI_total_best_effort emptyMTITables ("ABCD".toList)).2.1 (by decide)

/-! ## Claim C6 -/

theorem mem_onesPositions (cs : List Char) (k n : Nat) :
    n ∈ onesPositions cs k ↔
      ∃ i, i < cs.length ∧ cs.get? i = some '1' ∧ n = k + i + 1 := by
  induction cs generalizing k with
  | nil => simp [onesPositions]
  | cons c rest ih =>
    simp only [onesPositions, List.mem_append]
    constructor
    · rintro (h | h)
      · by_cases hc : c = '1'
        · rw [if_pos hc] at h
          simp only [List.mem_singleton] at h
          exact ⟨0, by simp, by simp [hc], by omega⟩
        · rw [if_neg hc] at h
          simp at h
      · obtain ⟨i, hi, hg, hn⟩ := (ih (k + 1)).mp h
        exact ⟨i + 1, by simpa using hi, by simpa using hg, by omega⟩
    · rintro ⟨i, hi, hg, hn⟩
      cases i with
      | zero =>
        left
        simp only [List.get?_cons_zero, Option.some.injEq] at hg
        rw [if_pos hg]
        simp only [List.mem_singleton]
        omega
      | succ j =>
        right
        refine (ih (k + 1)).mpr ⟨j, by simpa using hi, by simpa using hg, by omega⟩

theorem parseMain_primaryBitmap (specs : Nat → Option FieldSpec) (t : MTITables)
    (hex : List Char) (h : ¬hex.length < 20) :
    (parseMain specs t hex).primaryBitmap = some (primaryBitmapOf hex) := by
  unfold parseMain
  rw [if_neg h]
  split_ifs <;> rw [finalize_primaryBitmap]

theorem parseMain_secondaryBitmap (specs : Nat → Option FieldSpec) (t : MTITables)
    (hex : List Char) (h20 : ¬hex.length < 20)
    (hsec : (primaryBitmapOf hex).hasSecondary = true) (h36 : ¬hex.length < 36) :
    (parseMain specs t hex).secondaryBitmap = some (secondaryBitmapOf hex) := by
  unfold parseMain
  rw [if_neg h20]
  simp only [hsec, if_true]
  rw [if_neg h36, finalize_secondaryBitmap]

/-- Claim C6 (confirmed): for every successfully parsed primary bitmap,
`hasSecondary` is true iff bit position 1 of the 64-bit vector is `'1'`;
the primary bitmap's `activeFields` are exactly the set positions in
`2..64`; and when `hasSecondary` is true and at least 16 more hex
characters remain, a `secondaryBitmap` is present whose `activeFields`
are exactly `bitPosition + 64` for each set bit. -/
theorem claim6_bitmap_invariants (specs : Nat → Option FieldSpec) (t : MTITables)
    (input : List Char)
    (hhex : (normalizeHex input).all isHexChar = true)
    (h20 : 20 ≤ (normalizeHex input).length) :
    ∃ pb, (parseISO8583 specs t input).primaryBitmap = some pb ∧
      (pb.hasSecondary = true ↔ pb.binary.get? 0 = some '1') ∧
      (∀ n, n ∈ pb.activeFields ↔
        2 ≤ n ∧ n ≤ 64 ∧ pb.binary.get? (n - 1) = some '1') ∧
      (pb.hasSecondary = true → 36 ≤ (normalizeHex input).length →
        ∃ sb, (parseISO8583 specs t input).secondaryBitmap = some sb ∧
          ∀ m, m ∈ sb.activeFields ↔
            ∃ b, 1 ≤ b ∧ sb.binary.get? (b - 1) = some '1' ∧ m = b + 64) := by
  rw [parseISO8583_eq_parseMain specs t input (by omega) hhex]
  set hex := normalizeHex input with hhexdef
  refine ⟨primaryBitmapOf hex, parseMain_primaryBitmap specs t hex (by omega), ?_, ?_, ?_⟩
  · show ((decodeBitmap (jsSubstring hex 4 20)).binary.get? 0 == some '1') = true ↔ _
    simp [beq_iff_eq]
    rfl
  · intro n
    show n ∈ (onesPositions (decodeBitmap (jsSubstring hex 4 20)).binary 0).filter
        (fun f => 2 ≤ f && f ≤ 64) ↔ _
    rw [List.mem_filter, mem_onesPositions]
    constructor
    · rintro ⟨⟨i, hi, hg, hn⟩, hb⟩
      simp only [Bool.and_eq_true, decide_eq_true_eq] at hb
      refine ⟨hb.1, hb.2, ?_⟩
      have : n - 1 = i := by omega
      rw [this]
      exact hg
    · rintro ⟨h2, h64, hg⟩
      have hi : n - 1 < (decodeBitmap (jsSubstring hex 4 20)).binary.length :=
        List.get?_eq_some.mp hg |>.1
      refine ⟨⟨n - 1, hi, hg, by omega⟩, ?_⟩
      simp only [Bool.and_eq_true, decide_eq_true_eq]
      exact ⟨h2, h64⟩
  · intro hsec h36
    refine ⟨secondaryBitmapOf hex,
      parseMain_secondaryBitmap specs t hex (by omega) hsec (by omega), ?_⟩
    intro m
    show m ∈ (onesPositions (decodeBitmap (jsSubstring hex 20 36)).binary 0).map (· + 64) ↔ _
    rw [List.mem_map]
    constructor
    · rintro ⟨p, hp, hm⟩
      obtain ⟨i, hi, hg, hn⟩ := (mem_onesPositions _ 0 p).mp hp
      refine ⟨p, by omega, ?_, hm.symm⟩
      have : p - 1 = i := by omega
      rw [this]
      exact hg
    · rintro ⟨b, hb1, hg, hm⟩
      refine ⟨b, ?_, hm.symm⟩
      have hi : b - 1 < (decodeBitmap (jsSubstring hex 20 36)).binary.length :=
        List.get?_eq_some.mp hg |>.1
      exact (mem_onesPositions _ 0 b).mpr ⟨b - 1, hi, hg, by omega⟩

/-- Witness for C6 on the network-echo preset message (fields 7, 11, 70
with a secondary bitmap). -/
theorem claim6_bitmap_invariants_witness :
    ((normalizeHex ("0800".toList ++ buildDualBitmap [7, 11, 70])).all isHexChar = true ∧
      20 ≤ (normalizeHex ("0800".toList ++ buildDualBitmap [7, 11, 70])).length) ∧
    ∃ pb, (parseISO8583 sampleSpecs sampleMTITables
        ("0800".toList ++ buildDualBitmap [7, 11, 70])).primaryBitmap = some pb ∧
      (pb.hasSecondary = true ↔ pb.binary.get? 0 = some '1') := by
  refine ⟨⟨by decide, by decide⟩, ?_⟩
  obtain ⟨pb, hpb, hiff, -, -⟩ := claim6_bitmap_invariants sampleSpecs sampleMTITables
    ("0800".toList ++ buildDualBitmap [7, 11, 70]) (by decide) (by decide)
  exact ⟨pb, hpb, hiff⟩

/-! ## Characterizations of single field-loop iterations -/

theorem fieldLoop_cons_continue (specs : Nat → Option FieldSpec) (hex : List Char)
    (f : Nat) (rest : List Nat) (st st' : LoopSt)
    (h : fieldStep specs hex f st = (st', true)) :
    fieldLoop specs hex (f :: rest) st = fieldLoop specs hex rest st' := by
  simp [fieldLoop, h]

theorem fieldLoop_cons_break (specs : Nat → Option FieldSpec) (hex : List Char)
    (f : Nat) (rest : List Nat) (st st' : LoopSt)
    (h : fieldStep specs hex f st = (st', false)) :
    fieldLoop specs hex (f :: rest) st = st' := by
  simp [fieldLoop, h]

theorem fieldStep_noSpec (specs : Nat → Option FieldSpec) (hex : List Char)
    (f : Nat) (st : LoopSt) (h : specs f = none) :
    fieldStep specs hex f st =
      ({ st with errors := st.errors ++ [⟨.noSpec f, none, some f⟩] }, true) := by
  unfold fieldStep
  rw [h]

theorem fieldStep_ranOut (specs : Nat → Option FieldSpec) (hex : List Char)
    (f : Nat) (st : LoopSt) (spec : FieldSpec)
    (hspec : specs f = some spec) (hpos : hex.length ≤ st.pos) :
    fieldStep specs hex f st =
      ({ st with errors := st.errors ++ [⟨.ranOut f, some st.pos, some f⟩] }, false) := by
  unfold fieldStep
  rw [hspec]
  simp only [if_pos hpos]

theorem fieldStep_fixed_ok (specs : Nat → Option FieldSpec) (hex : List Char)
    (f : Nat) (st : LoopSt) (spec : FieldSpec)
    (hspec : specs f = some spec) (hfmt : spec.format = "FIXED")
    (hpos : st.pos < hex.length)
    (hsuff : st.pos + fixedHexLen spec ≤ hex.length) :
    fieldStep specs hex f st =
      ({ pos := st.pos + fixedHexLen spec,
         errors := st.errors,
         fields := st.fields ++ [mkField f spec
           (jsSubstring hex st.pos (st.pos + fixedHexLen spec))
           (fixedValue spec (jsSubstring hex st.pos (st.pos + fixedHexLen spec)))
           (fixedHexLen spec / 2) st.pos (st.pos + fixedHexLen spec)],
         segments := st.segments ++ [mkFieldSeg f spec
           (jsSubstring hex st.pos (st.pos + fixedHexLen spec))
           st.pos (st.pos + fixedHexLen spec)] }, true) := by
  unfold fieldStep
  rw [hspec]
  have h1 : ¬hex.length ≤ st.pos := by omega
  have h2 : ¬hex.length < st.pos + fixedHexLen spec := by omega
  simp [if_neg h1, hfmt, h2]

theorem fieldStep_fixed_trunc (specs : Nat → Option FieldSpec) (hex : List Char)
    (f : Nat) (st : LoopSt) (spec : FieldSpec)
    (hspec : specs f = some spec) (hfmt : spec.format = "FIXED")
    (hpos : st.pos < hex.length)
    (hshort : hex.length < st.pos + fixedHexLen spec) :
    fieldStep specs hex f st =
      ({ pos := hex.length,
         errors := st.errors ++
           [⟨.fixedTrunc f (fixedHexLen spec) (hex.length - st.pos), some st.pos, some f⟩],
         fields := st.fields ++ [mkField f spec (hex.drop st.pos)
           (fixedValue spec (hex.drop st.pos))
           (fixedHexLen spec / 2) st.pos hex.length],
         segments := st.segments ++ [mkFieldSeg f spec (hex.drop st.pos)
           st.pos hex.length] }, true) := by
  unfold fieldStep
  rw [hspec]
  have h1 : ¬hex.length ≤ st.pos := by omega
  simp [if_neg h1, hfmt, hshort]

theorem fieldStep_llvar_prefix_exhausted (specs : Nat → Option FieldSpec)
    (hex : List Char) (f : Nat) (st : LoopSt) (spec : FieldSpec)
    (hspec : specs f = some spec) (hfmt : spec.format = "LLVAR")
    (hpos : st.pos < hex.length) (hshort : hex.length < st.pos + 2) :
    fieldStep specs hex f st =
      ({ st with errors := st.errors ++
        [⟨.llvarPrefixShort f, some st.pos, some f⟩] }, false) := by
  unfold fieldStep
  rw [hspec]
  have h1 : ¬hex.length ≤ st.pos := by omega
  have hnf : ¬spec.format = "FIXED" := by rw [hfmt]; decide
  simp [if_neg h1, hnf, hfmt, hshort]

theorem fieldStep_llvar_invalid (specs : Nat → Option FieldSpec)
    (hex : List Char) (f : Nat) (st : LoopSt) (spec : FieldSpec)
    (hspec : specs f = some spec) (hfmt : spec.format = "LLVAR")
    (hpos : st.pos < hex.length) (hpre : st.pos + 2 ≤ hex.length)
    (hbad : jsParseIntDec (jsSubstring hex st.pos (st.pos + 2)) = none ∨
      ∃ L, jsParseIntDec (jsSubstring hex st.pos (st.pos + 2)) = some L ∧
        spec.maxLength < L) :
    fieldStep specs hex f st =
      ({ st with
          pos := st.pos + 2,
          errors := st.errors ++
            [⟨.invalidLLVARLen f (jsSubstring hex st.pos (st.pos + 2)),
              some st.pos, some f⟩] }, true) := by
  unfold fieldStep
  rw [hspec]
  have h1 : ¬hex.length ≤ st.pos := by omega
  have hnf : ¬spec.format = "FIXED" := by rw [hfmt]; decide
  have h2 : ¬hex.length < st.pos + 2 := by omega
  simp only [if_neg h1, if_neg hnf, hfmt, if_pos rfl, if_neg h2]
  rcases hbad with h | ⟨L, hL, hmax⟩
  · rw [h]
    simp
  · rw [hL]
    simp [hmax]

theorem fieldStep_llvar_ok (specs : Nat → Option FieldSpec)
    (hex : List Char) (f : Nat) (st : LoopSt) (spec : FieldSpec) (L : Nat)
    (hspec : specs f = some spec) (hfmt : spec.format = "LLVAR")
    (hpos : st.pos < hex.length) (hpre : st.pos + 2 ≤ hex.length)
    (hlen : jsParseIntDec (jsSubstring hex st.pos (st.pos + 2)) = some L)
    (hLmax : L ≤ spec.maxLength)
    (hdata : st.pos + 2 + varHexLen spec.type L ≤ hex.length) :
    fieldStep specs hex f st =
      ({ pos := st.pos + 2 + varHexLen spec.type L,
         errors := st.errors,
         fields := st.fields ++ [mkField f spec
           (jsSubstring hex st.pos (st.pos + 2) ++
             jsSubstring hex (st.pos + 2) (st.pos + 2 + varHexLen spec.type L))
           (if spec.type = "n" then
             jsSubstring hex (st.pos + 2 + varHexLen spec.type L - varHexLen spec.type L)
               (st.pos + 2 + varHexLen spec.type L)
           else hexToAscii (jsSubstring hex
             (st.pos + 2 + varHexLen spec.type L - varHexLen spec.type L)
             (st.pos + 2 + varHexLen spec.type L)))
           L st.pos (st.pos + 2 + varHexLen spec.type L)],
         segments := st.segments ++ [mkFieldSeg f spec
           (jsSubstring hex st.pos (st.pos + 2) ++
             jsSubstring hex (st.pos + 2) (st.pos + 2 + varHexLen spec.type L))
           st.pos (st.pos + 2 + varHexLen spec.type L)] }, true) := by
  unfold fieldStep
  rw [hspec]
  have h1 : ¬hex.length ≤ st.pos := by omega
  have hnf : ¬spec.format = "FIXED" := by rw [hfmt]; decide
  have h2 : ¬hex.length < st.pos + 2 := by omega
  have h3 : ¬spec.maxLength < L := by omega
  have h4 : ¬hex.length < st.pos + 2 + varHexLen spec.type L := by omega
  simp only [if_neg h1, if_neg hnf, hfmt, if_pos rfl, if_neg h2]
  rw [hlen]
  simp [if_neg h3, h4]

theorem fieldStep_llvar_data_trunc (specs : Nat → Option FieldSpec)
    (hex : List Char) (f : Nat) (st : LoopSt) (spec : FieldSpec) (L : Nat)
    (hspec : specs f = some spec) (hfmt : spec.format = "LLVAR")
    (hpos : st.pos < hex.length) (hpre : st.pos + 2 ≤ hex.length)
    (hlen : jsParseIntDec (jsSubstring hex st.pos (st.pos + 2)) = some L)
    (hLmax : L ≤ spec.maxLength)
    (hshort : hex.length < st.pos + 2 + varHexLen spec.type L) :
    fieldStep specs hex f st =
      ({ pos := hex.length,
         errors := st.errors ++ [⟨.dataTrunc f (varHexLen spec.type L)
           (hex.length - (st.pos + 2)), some (st.pos + 2), some f⟩],
         fields := st.fields ++ [mkField f spec
           (jsSubstring hex st.pos (st.pos + 2) ++ hex.drop (st.pos + 2))
           (if spec.type = "n" then
             jsSubstring hex (hex.length - varHexLen spec.type L) hex.length
           else hexToAscii
             (jsSubstring hex (hex.length - varHexLen spec.type L) hex.length))
           L st.pos hex.length],
         segments := st.segments ++ [mkFieldSeg f spec
           (jsSubstring hex st.pos (st.pos + 2) ++ hex.drop (st.pos + 2))
           st.pos hex.length] }, true) := by
  unfold fieldStep
  rw [hspec]
  have h1 : ¬hex.length ≤ st.pos := by omega
  have hnf : ¬spec.format = "FIXED" := by rw [hfmt]; decide
  have h2 : ¬hex.length < st.pos + 2 := by omega
  have h3 : ¬spec.maxLength < L := by omega
  simp only [if_neg h1, if_neg hnf, hfmt, if_pos rfl, if_neg h2]
  rw [hlen]
  simp [if_neg h3, hshort]

theorem fieldStep_lllvar_prefix_exhausted (specs : Nat → Option FieldSpec)
    (hex : List Char) (f : Nat) (st : LoopSt) (spec : FieldSpec)
    (hspec : specs f = some spec) (hfmt : spec.format = "LLLVAR")
    (hpos : st.pos < hex.length) (hshort : hex.length < st.pos + 4) :
    fieldStep specs hex f st =
      ({ st with errors := st.errors ++
        [⟨.lllvarPrefixShort f, some st.pos, some f⟩] }, false) := by
  unfold fieldStep
  rw [hspec]
  have h1 : ¬hex.length ≤ st.pos := by omega
  have hnf : ¬spec.format = "FIXED" := by rw [hfmt]; decide
  have hnl : ¬spec.format = "LLVAR" := by rw [hfmt]; decide
  simp [if_neg h1, hnf, hnl, hfmt, hshort]

theorem fieldStep_lllvar_invalid (specs : Nat → Option FieldSpec)
    (hex : List Char) (f : Nat) (st : LoopSt) (spec : FieldSpec)
    (hspec : specs f = some spec) (hfmt : spec.format = "LLLVAR")
    (hpos : st.pos < hex.length) (hpre : st.pos + 4 ≤ hex.length)
    (hbad : jsParseIntDec (jsSubstring hex st.pos (st.pos + 4)) = none ∨
      ∃ L, jsParseIntDec (jsSubstring hex st.pos (st.pos + 4)) = some L ∧
        spec.maxLength < L) :
    fieldStep specs hex f st =
      ({ st with
          pos := st.pos + 4,
          errors := st.errors ++
            [⟨.invalidLLLVARLen f (jsSubstring hex st.pos (st.pos + 4)),
              some st.pos, some f⟩] }, true) := by
  unfold fieldStep
  rw [hspec]
  have h1 : ¬hex.length ≤ st.pos := by omega
  have hnf : ¬spec.format = "FIXED" := by rw [hfmt]; decide
  have hnl : ¬spec.format = "LLVAR" := by rw [hfmt]; decide
  have h2 : ¬hex.length < st.pos + 4 := by omega
  simp only [if_neg h1, if_neg hnf, if_neg hnl, hfmt, if_pos rfl, if_neg h2]
  rcases hbad with h | ⟨L, hL, hmax⟩
  · rw [h]
    simp
  · rw [hL]
    simp [hmax]

theorem fieldStep_lllvar_ok (specs : Nat → Option FieldSpec)
    (hex : List Char) (f : Nat) (st : LoopSt) (spec : FieldSpec) (L : Nat)
    (hspec : specs f = some spec) (hfmt : spec.format = "LLLVAR")
    (hpos : st.pos < hex.length) (hpre : st.pos + 4 ≤ hex.length)
    (hlen : jsParseIntDec (jsSubstring hex st.pos (st.pos + 4)) = some L)
    (hLmax : L ≤ spec.maxLength)
    (hdata : st.pos + 4 + varHexLen spec.type L ≤ hex.length) :
    fieldStep specs hex f st =
      ({ pos := st.pos + 4 + varHexLen spec.type L,
         errors := st.errors,
         fields := st.fields ++ [mkField f spec
           (jsSubstring hex st.pos (st.pos + 4) ++
             jsSubstring hex (st.pos + 4) (st.pos + 4 + varHexLen spec.type L))
           (if spec.type = "n" then
             jsSubstring hex (st.pos + 4 + varHexLen spec.type L - varHexLen spec.type L)
               (st.pos + 4 + varHexLen spec.type L)
           else hexToAscii (jsSubstring hex
             (st.pos + 4 + varHexLen spec.type L - varHexLen spec.type L)
             (st.pos + 4 + varHexLen spec.type L)))
           L st.pos (st.pos + 4 + varHexLen spec.type L)],
         segments := st.segments ++ [mkFieldSeg f spec
           (jsSubstring hex st.pos (st.pos + 4) ++
             jsSubstring hex (st.pos + 4) (st.pos + 4 + varHexLen spec.type L))
           st.pos (st.pos + 4 + varHexLen spec.type L)] }, true) := by
  unfold fieldStep
  rw [hspec]
  have h1 : ¬hex.length ≤ st.pos := by omega
  have hnf : ¬spec.format = "FIXED" := by rw [hfmt]; decide
  have hnl : ¬spec.format = "LLVAR" := by rw [hfmt]; decide
  have h2 : ¬hex.length < st.pos + 4 := by omega
  have h3 : ¬spec.maxLength < L := by omega
  have h4 : ¬hex.length < st.pos + 4 + varHexLen spec.type L := by omega
  simp only [if_neg h1, if_neg hnf, if_neg hnl, hfmt, if_pos rfl, if_neg h2]
  rw [hlen]
  simp [if_neg h3, h4]

theorem fieldStep_lllvar_data_trunc (specs : Nat → Option FieldSpec)
    (hex : List Char) (f : Nat) (st : LoopSt) (spec : FieldSpec) (L : Nat)
    (hspec : specs f = some spec) (hfmt : spec.format = "LLLVAR")
    (hpos : st.pos < hex.length) (hpre : st.pos + 4 ≤ hex.length)
    (hlen : jsParseIntDec (jsSubstring hex st.pos (st.pos + 4)) = some L)
    (hLmax : L ≤ spec.maxLength)
    (hshort : hex.length < st.pos + 4 + varHexLen spec.type L) :
    fieldStep specs hex f st =
      ({ pos := hex.length,
         errors := st.errors ++ [⟨.dataTrunc f (varHexLen spec.type L)
           (hex.length - (st.pos + 4)), some (st.pos + 4), some f⟩],
         fields := st.fields ++ [mkField f spec
           (jsSubstring hex st.pos (st.pos + 4) ++ hex.drop (st.pos + 4))
           (if spec.type = "n" then
             jsSubstring hex (hex.length - varHexLen spec.type L) hex.length
           else hexToAscii
             (jsSubstring hex (hex.length - varHexLen spec.type L) hex.length))
           L st.pos hex.length],
         segments := st.segments ++ [mkFieldSeg f spec
           (jsSubstring hex st.pos (st.pos + 4) ++ hex.drop (st.pos + 4))
           st.pos hex.length] }, true) := by
  unfold fieldStep
  rw [hspec]
  have h1 : ¬hex.length ≤ st.pos := by omega
  have hnf : ¬spec.format = "FIXED" := by rw [hfmt]; decide
  have hnl : ¬spec.format = "LLVAR" := by rw [hfmt]; decide
  have h2 : ¬hex.length < st.pos + 4 := by omega
  have h3 : ¬spec.maxLength < L := by omega
  simp only [if_neg h1, if_neg hnf, if_neg hnl, hfmt, if_pos rfl, if_neg h2]
  rw [hlen]
  simp [if_neg h3, hshort]

/-! ## Claim C7 -/

/-- Claim C7 (confirmed): for every active FIXED-format field with a
specification and sufficient remaining input, the consumed hex-character
count equals `maxLength × 2` for binary and text data types and
`maxLength` rounded up to the next even number for numeric data types
(`"n"`/`"x+n"`), and the decoded value is the raw consumed hex for
numeric and binary types and its printable-character conversion for the
other (text) types. -/
theorem claim7_fixed_consumption (specs : Nat → Option FieldSpec) (hex : List Char)
    (f : Nat) (rest : List Nat) (st : LoopSt) (spec : FieldSpec)
    (hspec : specs f = some spec) (hfmt : spec.format = "FIXED")
    (hmax : 0 < spec.maxLength)
    (hsuff : st.pos + (if spec.type = "n" ∨ spec.type = "x+n"
        then spec.maxLength + spec.maxLength % 2
        else spec.maxLength * 2) ≤ hex.length) :
    ∃ pf : ParsedField,
      fieldLoop specs hex (f :: rest) st =
        fieldLoop specs hex rest
          { pos := pf.endPos, errors := st.errors,
            fields := st.fields ++ [pf],
            segments := st.segments ++ [mkFieldSeg f spec pf.rawHex st.pos pf.endPos] } ∧
      pf.de = f ∧ pf.startPos = st.pos ∧
      pf.endPos = st.pos + (if spec.type = "n" ∨ spec.type = "x+n"
        then spec.maxLength + spec.maxLength % 2
        else spec.maxLength * 2) ∧
      pf.rawHex = jsSubstring hex st.pos pf.endPos ∧
      pf.decodedValue = (if spec.type = "n" ∨ spec.type = "x+n" ∨ spec.type = "b"
        then pf.rawHex else hexToAscii pf.rawHex) := by
  have hK : fixedHexLen spec =
      (if spec.type = "n" ∨ spec.type = "x+n"
        then spec.maxLength + spec.maxLength % 2
        else spec.maxLength * 2) := by
    unfold fixedHexLen
    by_cases hb : spec.type = "b"
    · have : ¬(spec.type = "n" ∨ spec.type = "x+n") := by
        rintro (h | h) <;> rw [hb] at h <;> exact absurd h (by decide)
      rw [if_pos hb, if_neg this]
    · by_cases hn : spec.type = "n" ∨ spec.type = "x+n"
      · have hcond : (spec.type = "n" || spec.type = "x+n") = true := by
          rcases hn with h | h <;> simp [h]
        rw [if_neg hb, if_pos hcond, if_pos hn]
        split_ifs with hodd <;> omega
      · have hcond : ¬(spec.type = "n" || spec.type = "x+n") = true := by
          simp only [Bool.or_eq_true, decide_eq_true_eq]
          exact hn
        rw [if_neg hb, if_neg hcond, if_neg hn]
  have hKpos : 0 < fixedHexLen spec := by
    rw [hK]
    split_ifs <;> omega
  rw [← hK] at hsuff
  have hpos : st.pos < hex.length := by omega
  refine ⟨mkField f spec (jsSubstring hex st.pos (st.pos + fixedHexLen spec))
    (fixedValue spec (jsSubstring hex st.pos (st.pos + fixedHexLen spec)))
    (fixedHexLen spec / 2) st.pos (st.pos + fixedHexLen spec), ?_, rfl, rfl, ?_, rfl, ?_⟩
  · rw [fieldLoop_cons_continue specs hex f rest st _
      (fieldStep_fixed_ok specs hex f st spec hspec hfmt hpos hsuff)]
    rfl
  · show st.pos + fixedHexLen spec = _
    rw [hK]
  · show fixedValue spec (jsSubstring hex st.pos (st.pos + fixedHexLen spec)) = _
    unfold fixedValue
    by_cases hn : spec.type = "n" ∨ spec.type = "x+n"
    · have hcond : (spec.type = "n" || spec.type = "x+n") = true := by
        rcases hn with h | h <;> simp [h]
      rw [if_pos hcond, if_pos (by tauto)]
      rfl
    · have hcond : ¬(spec.type = "n" || spec.type = "x+n") = true := by
        simp only [Bool.or_eq_true, decide_eq_true_eq]
        exact hn
      rw [if_neg hcond]
      by_cases hb : spec.type = "b"
      · rw [if_pos hb, if_pos (by tauto)]
        rfl
      · rw [if_neg hb, if_neg (by tauto)]
        rfl

/-- Witness for C7: DE41 (FIXED `ans` of max length 8) at the start of the
payload area consumes 16 hex characters and decodes through
`hexToAscii`. -/
theorem claim7_fixed_consumption_witness :
    (sampleSpecs 41 = some ⟨"Card Acceptor Terminal ID", "FIXED", "ans", 8, "terminal", none⟩ ∧
      (20 : Nat) + (if ("ans" : String) = "n" ∨ ("ans" : String) = "x+n"
        then 8 + 8 % 2 else 8 * 2) ≤ ("0100".toList ++ buildBitmap [41] ++
          asciiToHex ("TERM0001".toList)).length) ∧
    ∃ pf : ParsedField,
      fieldLoop sampleSpecs ("0100".toList ++ buildBitmap [41] ++ asciiToHex ("TERM0001".toList))
          [41] ⟨20, [], [], []⟩ =
        fieldLoop sampleSpecs ("0100".toList ++ buildBitmap [41] ++ asciiToHex ("TERM0001".toList))
          [] { pos := pf.endPos, errors := [], fields := [pf],
               segments := [mkFieldSeg 41 ⟨"Card Acceptor Terminal ID", "FIXED", "ans", 8, "terminal", none⟩
                 pf.rawHex 20 pf.endPos] } ∧
      pf.de = 41 ∧ pf.endPos = 36 := by
  refine ⟨⟨by decide, by decide⟩, ?_⟩
  obtain ⟨pf, heq, hde, hstart, hend, hraw, hval⟩ :=
    claim7_fixed_consumption sampleSpecs
      ("0100".toList ++ buildBitmap [41] ++ asciiToHex ("TERM0001".toList))
      41 [] ⟨20, [], [], []⟩
      ⟨"Card Acceptor Terminal ID", "FIXED", "ans", 8, "terminal", none⟩
      (by decide) (by decide) (by decide) (by decide)
  exact ⟨pf, heq, hde, by rw [hend]; decide⟩

/-! ## Behaviour of the loop once the cursor reached end-of-stream -/

/-- Once the cursor is at (or past) end-of-stream, the rest of the loop
parses nothing: fields and cursor are unchanged, only `noSpec` /
`ranOut` errors can still be appended. -/
theorem fieldLoop_at_end (specs : Nat → Option FieldSpec) (hex : List Char)
    (l : List Nat) (st : LoopSt) (h : hex.length ≤ st.pos) :
    (fieldLoop specs hex l st).fields = st.fields ∧
    (fieldLoop specs hex l st).pos = st.pos ∧
    ∃ tail, (fieldLoop specs hex l st).errors = st.errors ++ tail := by
  induction l generalizing st with
  | nil => exact ⟨rfl, rfl, [], by simp [fieldLoop]⟩
  | cons f rest ih =>
    cases hspec : specs f with
    | none =>
      rw [fieldLoop_cons_continue specs hex f rest st _
        (fieldStep_noSpec specs hex f st hspec)]
      obtain ⟨h1, h2, tail, h3⟩ :=
        ih { st with errors := st.errors ++ [⟨.noSpec f, none, some f⟩] } h
      exact ⟨h1, h2, ⟨.noSpec f, none, some f⟩ :: tail, by simp [h3]⟩
    | some spec =>
      rw [fieldLoop_cons_break specs hex f rest st _
        (fieldStep_ranOut specs hex f st spec hspec h)]
      exact ⟨rfl, rfl, [⟨.ranOut f, some st.pos, some f⟩], rfl⟩

/-- Combination: a continuing step that leaves the cursor at
end-of-stream determines the rest of the loop. -/
theorem fieldLoop_cons_to_end (specs : Nat → Option FieldSpec) (hex : List Char)
    (f : Nat) (rest : List Nat) (st st' : LoopSt)
    (hstep : fieldStep specs hex f st = (st', true))
    (hpos : st'.pos = hex.length) :
    (fieldLoop specs hex (f :: rest) st).fields = st'.fields ∧
    (fieldLoop specs hex (f :: rest) st).pos = hex.length ∧
    ∃ tail, (fieldLoop specs hex (f :: rest) st).errors = st'.errors ++ tail := by
  rw [fieldLoop_cons_continue specs hex f rest st st' hstep]
  obtain ⟨h1, h2, tail, h3⟩ := fieldLoop_at_end specs hex rest st' (by omega)
  exact ⟨h1, by rw [h2, hpos], tail, h3⟩

/-! ## Claim C2 -/

/-- Counterexample to claim C2 as stated: the scenario of spec §8 — DE2's
LLVAR prefix declares length 99 while `maxLength` is 19.  The parser does
log one error for DE2, skip the field and continue, but
`overallSuccess` becomes `false`: the final success computation excludes
only missing-spec and trailing-unparsed errors, and the invalid-length
error is neither. -/
theorem claim2_counterexample :
    (parseISO8583 sampleSpecs sampleMTITables
      ("0100".toList ++ buildBitmap [2] ++ "99".toList)).success = false ∧
    (parseISO8583 sampleSpecs sampleMTITables
      ("0100".toList ++ buildBitmap [2] ++ "99".toList)).errors.map (fun e => e.field) =
      [some 2] ∧
    (parseISO8583 sampleSpecs sampleMTITables
      ("0100".toList ++ buildBitmap [2] ++ "99".toList)).fields = [] := by
  exact ⟨rfl, rfl, rfl⟩

/-- Claim C2 (amended): for every active LLVAR (or LLLVAR) field whose
fully-readable 2-character (or 4-character) length prefix fails the
parser's length check — the JS `parseInt(·, 10)` parse yields no value
(first character not a decimal digit; note a prefix such as `"4F"`
parses as `4`) or yields a value exceeding `maxLength` — the loop logs
exactly one per-field error for that field, emits no `ParsedField`,
advances the cursor past only the prefix, and continues with the next
bitmap-indicated field; contrary to the original claim, this error is
counted by the `overallSuccess` computation (which excludes only
missing-spec and trailing-unparsed errors), so any result retaining it
has `overallSuccess = false`. -/
theorem claim2_invalid_var_length (specs : Nat → Option FieldSpec)
    (hex : List Char) (f : Nat) (rest : List Nat) (st : LoopSt)
    (spec : FieldSpec) (w : Nat)
    (hspec : specs f = some spec)
    (hfmt : (spec.format = "LLVAR" ∧ w = 2) ∨ (spec.format = "LLLVAR" ∧ w = 4))
    (hpos : st.pos < hex.length) (hpre : st.pos + w ≤ hex.length)
    (hbad : jsParseIntDec (jsSubstring hex st.pos (st.pos + w)) = none ∨
      ∃ L, jsParseIntDec (jsSubstring hex st.pos (st.pos + w)) = some L ∧
        spec.maxLength < L) :
    ∃ e : ParseError,
      fieldLoop specs hex (f :: rest) st =
        fieldLoop specs hex rest
          { st with pos := st.pos + w, errors := st.errors ++ [e] } ∧
      e.field = some f ∧ errExcluded e = false ∧
      (∀ (m : Option MTIInfo) (pb sb : Option BitmapInfo) (st2 : LoopSt),
        e ∈ st2.errors → (finalize hex m pb sb st2).success = false) := by
  have hsucc : ∀ (e : ParseError), errExcluded e = false →
      ∀ (m : Option MTIInfo) (pb sb : Option BitmapInfo) (st2 : LoopSt),
        e ∈ st2.errors → (finalize hex m pb sb st2).success = false := by
    intro e hex2 m pb sb st2 hmem
    unfold finalize
    have key : ∀ errs' : List ParseError, e ∈ errs' →
        (errs'.filter fun x => !errExcluded x).isEmpty = false := by
      intro errs' hm
      have : e ∈ errs'.filter fun x => !errExcluded x :=
        List.mem_filter.mpr ⟨hm, by rw [hex2]; rfl⟩
      rcases herrs : errs'.filter fun x => !errExcluded x with _ | ⟨a, tl⟩
      · rw [herrs] at this
        simp at this
      · rfl
    split
    · exact key _ (by simp [hmem])
    · exact key _ hmem
  rcases hfmt with ⟨hfmt, hw⟩ | ⟨hfmt, hw⟩
  · subst hw
    refine ⟨⟨.invalidLLVARLen f (jsSubstring hex st.pos (st.pos + 2)), some st.pos, some f⟩,
      ?_, rfl, rfl, hsucc _ rfl⟩
    exact fieldLoop_cons_continue specs hex f rest st _
      (fieldStep_llvar_invalid specs hex f st spec hspec hfmt hpos hpre hbad)
  · subst hw
    refine ⟨⟨.invalidLLLVARLen f (jsSubstring hex st.pos (st.pos + 4)), some st.pos, some f⟩,
      ?_, rfl, rfl, hsucc _ rfl⟩
    exact fieldLoop_cons_continue specs hex f rest st _
      (fieldStep_lllvar_invalid specs hex f st spec hspec hfmt hpos hpre hbad)

/-- Witness for the amended C2 at the scenario-2 input (DE2 prefix
`"99"`, `maxLength` 19). -/
theorem claim2_invalid_var_length_witness :
    (sampleSpecs 2 = some ⟨"Primary Account Number", "LLVAR", "n", 19, "identification", none⟩ ∧
      jsParseIntDec (jsSubstring ("0100".toList ++ buildBitmap [2] ++ "99".toList) 20 22) =
        some 99) ∧
    ∃ e : ParseError,
      fieldLoop sampleSpecs ("0100".toList ++ buildBitmap [2] ++ "99".toList) [2]
          ⟨20, [], [], []⟩ =
        fieldLoop sampleSpecs ("0100".toList ++ buildBitmap [2] ++ "99".toList) []
          { pos := 22, errors := [e], fields := [], segments := [] } ∧
      e.field = some 2 ∧ errExcluded e = false := by
  refine ⟨⟨by decide, by decide⟩, ?_⟩
  obtain ⟨e, heq, hf, hx, -⟩ := claim2_invalid_var_length sampleSpecs
    ("0100".toList ++ buildBitmap [2] ++ "99".toList) 2 [] ⟨20, [], [], []⟩
    ⟨"Primary Account Number", "LLVAR", "n", 19, "identification", none⟩ 2
    (by decide) (Or.inl ⟨rfl, rfl⟩) (by decide) (by decide)
    (Or.inr ⟨99, by decide, by decide⟩)
  exact ⟨e, heq, hf, hx⟩

/-! ## Claim C4 -/

/-- Counterexample to claim C4 as stated: DE3 is FIXED numeric with
`maxLength` 6, but only 4 hex characters remain.  The parser logs the
truncation error and forces the cursor to end-of-stream — but it still
pushes a `ParsedField` for DE3 (with the truncated remainder as its raw
hex), contradicting "no ParsedField is emitted for the truncated
field". -/
theorem claim4_counterexample :
    (parseISO8583 sampleSpecs sampleMTITables
      ("0100".toList ++ buildBitmap [3] ++ "0000".toList)).fields.map
        (fun pf => (pf.de, pf.rawHex)) = [(3, ['0', '0', '0', '0'])] ∧
    (parseISO8583 sampleSpecs sampleMTITables
      ("0100".toList ++ buildBitmap [3] ++ "0000".toList)).errors.map (fun e => e.kind) =
      [.fixedTrunc 3 6 4] := by
  exact ⟨rfl, rfl⟩

/-- Claim C4 (amended): for every active field with a specification whose
remaining input cannot satisfy a FIXED field's required length (or an
LLVAR/LLLVAR field's validly-declared data portion), the loop logs an
error, consumes whatever remains, forces the cursor to end-of-stream,
and no field after it is parsed (any later specified field only adds a
ran-out-of-data error); however — contrary to the original claim — a
`ParsedField` IS emitted for the truncated field itself, with the
consumed remainder as its raw hex. -/
theorem claim4_truncation_stops_loop (specs : Nat → Option FieldSpec)
    (hex : List Char) (f : Nat) (rest : List Nat) (st : LoopSt)
    (spec : FieldSpec)
    (hspec : specs f = some spec) (hpos : st.pos < hex.length)
    (htrunc :
      (spec.format = "FIXED" ∧ hex.length < st.pos + fixedHexLen spec) ∨
      (spec.format = "LLVAR" ∧ st.pos + 2 ≤ hex.length ∧
        ∃ L, jsParseIntDec (jsSubstring hex st.pos (st.pos + 2)) = some L ∧
          L ≤ spec.maxLength ∧ hex.length < st.pos + 2 + varHexLen spec.type L) ∨
      (spec.format = "LLLVAR" ∧ st.pos + 4 ≤ hex.length ∧
        ∃ L, jsParseIntDec (jsSubstring hex st.pos (st.pos + 4)) = some L ∧
          L ≤ spec.maxLength ∧ hex.length < st.pos + 4 + varHexLen spec.type L)) :
    ∃ (pf : ParsedField) (e : ParseError),
      (fieldLoop specs hex (f :: rest) st).fields = st.fields ++ [pf] ∧
      (fieldLoop specs hex (f :: rest) st).pos = hex.length ∧
      (∃ tail, (fieldLoop specs hex (f :: rest) st).errors =
        st.errors ++ [e] ++ tail) ∧
      e.field = some f ∧
      pf.de = f ∧ pf.startPos = st.pos ∧ pf.endPos = hex.length := by
  rcases htrunc with ⟨hfmt, hshort⟩ | ⟨hfmt, hpre, L, hL, hmax, hshort⟩ |
    ⟨hfmt, hpre, L, hL, hmax, hshort⟩
  · obtain ⟨h1, h2, tail, h3⟩ := fieldLoop_cons_to_end specs hex f rest st _
      (fieldStep_fixed_trunc specs hex f st spec hspec hfmt hpos hshort) rfl
    exact ⟨_, ⟨.fixedTrunc f (fixedHexLen spec) (hex.length - st.pos), some st.pos, some f⟩,
      by rw [h1], h2, ⟨tail, by rw [h3]⟩, rfl, rfl, rfl, rfl⟩
  · obtain ⟨h1, h2, tail, h3⟩ := fieldLoop_cons_to_end specs hex f rest st _
      (fieldStep_llvar_data_trunc specs hex f st spec L hspec hfmt hpos hpre hL hmax hshort) rfl
    exact ⟨_, ⟨.dataTrunc f (varHexLen spec.type L) (hex.length - (st.pos + 2)),
      some (st.pos + 2), some f⟩,
      by rw [h1], h2, ⟨tail, by rw [h3]⟩, rfl, rfl, rfl, rfl⟩
  · obtain ⟨h1, h2, tail, h3⟩ := fieldLoop_cons_to_end specs hex f rest st _
      (fieldStep_lllvar_data_trunc specs hex f st spec L hspec hfmt hpos hpre hL hmax hshort) rfl
    exact ⟨_, ⟨.dataTrunc f (varHexLen spec.type L) (hex.length - (st.pos + 4)),
      some (st.pos + 4), some f⟩,
      by rw [h1], h2, ⟨tail, by rw [h3]⟩, rfl, rfl, rfl, rfl⟩

/-- Witness for the amended C4: DE3 (FIXED, 6 hex chars needed) with only
4 remaining; a later active field DE4 is not parsed. -/
theorem claim4_truncation_stops_loop_witness :
    (sampleSpecs 3 = some ⟨"Processing Code", "FIXED", "n", 6, "processing", none⟩ ∧
      ("0100".toList ++ buildBitmap [3, 4] ++ "0000".toList).length = 24) ∧
    ∃ (pf : ParsedField) (e : ParseError),
      (fieldLoop sampleSpecs ("0100".toList ++ buildBitmap [3, 4] ++ "0000".toList)
        [3, 4] ⟨20, [], [], []⟩).fields = [pf] ∧
      (fieldLoop sampleSpecs ("0100".toList ++ buildBitmap [3, 4] ++ "0000".toList)
        [3, 4] ⟨20, [], [], []⟩).pos = 24 ∧
      pf.de = 3 ∧ pf.endPos = 24 ∧ e.field = some 3 := by
  refine ⟨⟨by decide, by decide⟩, ?_⟩
  obtain ⟨pf, e, h1, h2, -, hef, hde, -, hend⟩ :=
    claim4_truncation_stops_loop sampleSpecs
      ("0100".toList ++ buildBitmap [3, 4] ++ "0000".toList) 3 [4] ⟨20, [], [], []⟩
      ⟨"Processing Code", "FIXED", "n", 6, "processing", none⟩
      (by decide) (by decide)
      (Or.inl ⟨rfl, by decide⟩)
  refine ⟨pf, e, by rw [h1]; rfl, by rw [h2]; decide, hde, by rw [hend]; decide, hef⟩

/-! ## Claim C10 -/

/-- A `HexSegment` is consistent with the normalized input: its byte
range is well-formed (`startPos ≤ endPos ≤ length`; `0 ≤ startPos` holds
trivially for `Nat`) and its `hex` field is exactly the substring at
that range. -/
def SegOK (hex : List Char) (s : HexSegment) : Prop :=
  s.startPos ≤ s.endPos ∧ s.endPos ≤ hex.length ∧
    s.hex = jsSubstring hex s.startPos s.endPos

theorem jsSubstring_append (hex : List Char) (a b c : Nat)
    (hab : a ≤ b) (hbc : b ≤ c) :
    jsSubstring hex a b ++ jsSubstring hex b c = jsSubstring hex a c := by
  unfold jsSubstring
  have h1 : hex.drop b = (hex.drop a).drop (b - a) := by
    rw [List.drop_drop]
    congr 1
    omega
  rw [h1, ← List.take_add]
  congr 1
  omega

theorem jsSubstring_to_end (hex : List Char) (p : Nat) :
    jsSubstring hex p hex.length = hex.drop p := by
  unfold jsSubstring
  exact List.take_of_length_le (by simp)

theorem jsSubstring_prefix_drop (hex : List Char) (p w : Nat)
    (h : p + w ≤ hex.length) :
    jsSubstring hex p (p + w) ++ hex.drop (p + w) = jsSubstring hex p hex.length := by
  rw [← jsSubstring_to_end hex (p + w), jsSubstring_append hex p (p + w) hex.length
    (by omega) (by omega)]

/-- The unknown-format fall-through (a `format` tag other than
FIXED/LLVAR/LLLVAR): an empty field and segment are still pushed. -/
theorem fieldStep_unknown_format (specs : Nat → Option FieldSpec) (hex : List Char)
    (f : Nat) (st : LoopSt) (spec : FieldSpec)
    (hspec : specs f = some spec) (hpos : st.pos < hex.length)
    (hnf : ¬spec.format = "FIXED") (hnl : ¬spec.format = "LLVAR")
    (hnll : ¬spec.format = "LLLVAR") :
    fieldStep specs hex f st =
      ({ st with
          fields := st.fields ++ [mkField f spec [] [] 0 st.pos st.pos],
          segments := st.segments ++ [mkFieldSeg f spec [] st.pos st.pos] }, true) := by
  unfold fieldStep
  rw [hspec]
  have h1 : ¬hex.length ≤ st.pos := by omega
  simp [if_neg h1, hnf, hnl, hnll]

/-- One loop iteration keeps the cursor within bounds and appends at most
one segment, consistent with its range. -/
theorem fieldStep_segments_ok (specs : Nat → Option FieldSpec) (hex : List Char)
    (f : Nat) (st : LoopSt) (hpos : st.pos ≤ hex.length) :
    (fieldStep specs hex f st).1.pos ≤ hex.length ∧
    ((fieldStep specs hex f st).1.segments = st.segments ∨
      ∃ sg, (fieldStep specs hex f st).1.segments = st.segments ++ [sg] ∧
        SegOK hex sg) := by
  cases hspec : specs f with
  | none =>
    rw [fieldStep_noSpec specs hex f st hspec]
    exact ⟨hpos, Or.inl rfl⟩
  | some spec =>
    by_cases hend : hex.length ≤ st.pos
    · rw [fieldStep_ranOut specs hex f st spec hspec hend]
      exact ⟨hpos, Or.inl rfl⟩
    · have hlt : st.pos < hex.length := by omega
      by_cases hfix : spec.format = "FIXED"
      · by_cases htr : hex.length < st.pos + fixedHexLen spec
        · rw [fieldStep_fixed_trunc specs hex f st spec hspec hfix hlt htr]
          refine ⟨le_refl _, Or.inr ⟨_, rfl, le_of_lt hlt, le_refl _, ?_⟩⟩
          show hex.drop st.pos = jsSubstring hex st.pos hex.length
          rw [jsSubstring_to_end]
        · have hsuff : st.pos + fixedHexLen spec ≤ hex.length := by omega
          rw [fieldStep_fixed_ok specs hex f st spec hspec hfix hlt hsuff]
          exact ⟨hsuff, Or.inr ⟨_, rfl,
            (by show st.pos ≤ st.pos + fixedHexLen spec; omega), hsuff, rfl⟩⟩
      · by_cases hll : spec.format = "LLVAR"
        · by_cases hpre : hex.length < st.pos + 2
          · rw [fieldStep_llvar_prefix_exhausted specs hex f st spec hspec hll hlt hpre]
            exact ⟨hpos, Or.inl rfl⟩
          · have hpre' : st.pos + 2 ≤ hex.length := by omega
            cases hparse : jsParseIntDec (jsSubstring hex st.pos (st.pos + 2)) with
            | none =>
              rw [fieldStep_llvar_invalid specs hex f st spec hspec hll hlt hpre'
                (Or.inl hparse)]
              exact ⟨hpre', Or.inl rfl⟩
            | some L =>
              by_cases hmax : spec.maxLength < L
              · rw [fieldStep_llvar_invalid specs hex f st spec hspec hll hlt hpre'
                  (Or.inr ⟨L, hparse, hmax⟩)]
                exact ⟨hpre', Or.inl rfl⟩
              · have hmax' : L ≤ spec.maxLength := by omega
                by_cases htr : hex.length < st.pos + 2 + varHexLen spec.type L
                · rw [fieldStep_llvar_data_trunc specs hex f st spec L hspec hll hlt
                    hpre' hparse hmax' htr]
                  refine ⟨le_refl _, Or.inr ⟨_, rfl, le_of_lt hlt, le_refl _, ?_⟩⟩
                  show jsSubstring hex st.pos (st.pos + 2) ++ hex.drop (st.pos + 2) =
                    jsSubstring hex st.pos hex.length
                  exact jsSubstring_prefix_drop hex st.pos 2 hpre'
                · have hsuff : st.pos + 2 + varHexLen spec.type L ≤ hex.length := by omega
                  rw [fieldStep_llvar_ok specs hex f st spec L hspec hll hlt hpre'
                    hparse hmax' hsuff]
                  refine ⟨hsuff, Or.inr ⟨_, rfl,
                    (by show st.pos ≤ st.pos + 2 + varHexLen spec.type L; omega),
                    hsuff, ?_⟩⟩
                  show jsSubstring hex st.pos (st.pos + 2) ++
                    jsSubstring hex (st.pos + 2) (st.pos + 2 + varHexLen spec.type L) =
                    jsSubstring hex st.pos (st.pos + 2 + varHexLen spec.type L)
                  exact jsSubstring_append hex st.pos (st.pos + 2)
                    (st.pos + 2 + varHexLen spec.type L) (by omega) (by omega)
        · by_cases hlll : spec.format = "LLLVAR"
          · by_cases hpre : hex.length < st.pos + 4
            · rw [fieldStep_lllvar_prefix_exhausted specs hex f st spec hspec hlll hlt hpre]
              exact ⟨hpos, Or.inl rfl⟩
            · have hpre' : st.pos + 4 ≤ hex.length := by omega
              cases hparse : jsParseIntDec (jsSubstring hex st.pos (st.pos + 4)) with
              | none =>
                rw [fieldStep_lllvar_invalid specs hex f st spec hspec hlll hlt hpre'
                  (Or.inl hparse)]
                exact ⟨hpre', Or.inl rfl⟩
              | some L =>
                by_cases hmax : spec.maxLength < L
                · rw [fieldStep_lllvar_invalid specs hex f st spec hspec hlll hlt hpre'
                    (Or.inr ⟨L, hparse, hmax⟩)]
                  exact ⟨hpre', Or.inl rfl⟩
                · have hmax' : L ≤ spec.maxLength := by omega
                  by_cases htr : hex.length < st.pos + 4 + varHexLen spec.type L
                  · rw [fieldStep_lllvar_data_trunc specs hex f st spec L hspec hlll hlt
                      hpre' hparse hmax' htr]
                    refine ⟨le_refl _, Or.inr ⟨_, rfl, le_of_lt hlt, le_refl _, ?_⟩⟩
                    show jsSubstring hex st.pos (st.pos + 4) ++ hex.drop (st.pos + 4) =
                      jsSubstring hex st.pos hex.length
                    exact jsSubstring_prefix_drop hex st.pos 4 hpre'
                  · have hsuff : st.pos + 4 + varHexLen spec.type L ≤ hex.length := by omega
                    rw [fieldStep_lllvar_ok specs hex f st spec L hspec hlll hlt hpre'
                      hparse hmax' hsuff]
                    refine ⟨hsuff, Or.inr ⟨_, rfl,
                      (by show st.pos ≤ st.pos + 4 + varHexLen spec.type L; omega),
                      hsuff, ?_⟩⟩
                    show jsSubstring hex st.pos (st.pos + 4) ++
                      jsSubstring hex (st.pos + 4) (st.pos + 4 + varHexLen spec.type L) =
                      jsSubstring hex st.pos (st.pos + 4 + varHexLen spec.type L)
                    exact jsSubstring_append hex st.pos (st.pos + 4)
                      (st.pos + 4 + varHexLen spec.type L) (by omega) (by omega)
          · rw [fieldStep_unknown_format specs hex f st spec hspec hlt hfix hll hlll]
            refine ⟨hpos, Or.inr ⟨_, rfl, le_refl _, hpos, ?_⟩⟩
            show ([] : List Char) = jsSubstring hex st.pos st.pos
            simp [jsSubstring]

/-- The whole loop keeps the cursor within bounds and every appended
segment consistent. -/
theorem fieldLoop_segments_ok (specs : Nat → Option FieldSpec) (hex : List Char)
    (l : List Nat) (st : LoopSt) (hpos : st.pos ≤ hex.length)
    (hsegs : ∀ s ∈ st.segments, SegOK hex s) :
    (fieldLoop specs hex l st).pos ≤ hex.length ∧
    ∀ s ∈ (fieldLoop specs hex l st).segments, SegOK hex s := by
  induction l generalizing st with
  | nil => exact ⟨hpos, hsegs⟩
  | cons f rest ih =>
    obtain ⟨hpos', hsegs'⟩ := fieldStep_segments_ok specs hex f st hpos
    rcases hstep : fieldStep specs hex f st with ⟨st', cont⟩
    rw [hstep] at hpos' hsegs'
    have hsegs'' : ∀ s ∈ st'.segments, SegOK hex s := by
      rcases hsegs' with h | ⟨sg, h, hok⟩
      · rw [h]; exact hsegs
      · rw [h]
        intro s hs
        rcases List.mem_append.mp hs with hs | hs
        · exact hsegs s hs
        · rw [List.mem_singleton.mp hs]; exact hok
    cases cont with
    | true =>
      rw [fieldLoop_cons_continue specs hex f rest st st' hstep]
      exact ih st' hpos' hsegs''
    | false =>
      rw [fieldLoop_cons_break specs hex f rest st st' hstep]
      exact ⟨hpos', hsegs''⟩

theorem finalize_segments_ok (hex : List Char) (m : Option MTIInfo)
    (pb sb : Option BitmapInfo) (st : LoopSt) (hpos : st.pos ≤ hex.length)
    (hsegs : ∀ s ∈ st.segments, SegOK hex s) :
    ∀ s ∈ (finalize hex m pb sb st).hexSegments, SegOK hex s := by
  unfold finalize
  split
  · intro s hs
    rcases List.mem_append.mp hs with hs | hs
    · exact hsegs s hs
    · rw [List.mem_singleton.mp hs]
      exact ⟨hpos, le_refl _, (jsSubstring_to_end hex st.pos).symm⟩
  · exact hsegs

/-- Claim C10 (confirmed): for every input that passes the fatal
precondition checks, every `HexSegment` in the result has
`startPos ≤ endPos ≤ length` of the normalized hex string and its `hex`
field equals exactly the substring of the normalized input between
`startPos` and `endPos`. -/
theorem claim10_segment_consistency (specs : Nat → Option FieldSpec)
    (t : MTITables) (input : List Char)
    (h4 : 4 ≤ (normalizeHex input).length)
    (hhex : (normalizeHex input).all isHexChar = true) :
    ∀ s ∈ (parseISO8583 specs t input).hexSegments,
      s.startPos ≤ s.endPos ∧ s.endPos ≤ (normalizeHex input).length ∧
        s.hex = jsSubstring (normalizeHex input) s.startPos s.endPos := by
  rw [parseISO8583_eq_parseMain specs t input (by omega) hhex]
  set hex := normalizeHex input with hhexdef
  have hmtiseg : SegOK hex (mtiSegOf t hex) :=
    ⟨by norm_num [mtiSegOf], by simp only [mtiSegOf]; omega, rfl⟩
  unfold parseMain
  split_ifs with h20 hsec h36
  · -- short-for-primary-bitmap early return
    intro s hs
    have heq : s = mtiSegOf t hex := by
      simpa [shortForBitmapResult] using hs
    exact heq ▸ hmtiseg
  · -- secondary indicated but stream too short
    have hpbseg : SegOK hex (pbSegOf hex) :=
      ⟨by norm_num [pbSegOf], by simp only [pbSegOf]; omega, rfl⟩
    have hinit : ∀ s ∈ [mtiSegOf t hex, pbSegOf hex], SegOK hex s := by
      intro s hs
      simp only [List.mem_cons, List.not_mem_nil, or_false] at hs
      rcases hs with hs | hs
      · exact hs ▸ hmtiseg
      · exact hs ▸ hpbseg
    obtain ⟨hp, hs⟩ := fieldLoop_segments_ok specs hex
      (primaryBitmapOf hex).activeFields
      ⟨20, [⟨.secondaryTooShort, some 20, none⟩], [], [mtiSegOf t hex, pbSegOf hex]⟩
      (by simp only []; omega) hinit
    exact finalize_segments_ok hex _ _ _ _ hp hs
  · -- secondary present
    have hpbseg : SegOK hex (pbSegOf hex) :=
      ⟨by norm_num [pbSegOf], by simp only [pbSegOf]; omega, rfl⟩
    have hsbseg : SegOK hex (sbSegOf hex) :=
      ⟨by norm_num [sbSegOf], by simp only [sbSegOf]; omega, rfl⟩
    have hinit : ∀ s ∈ [mtiSegOf t hex, pbSegOf hex, sbSegOf hex], SegOK hex s := by
      intro s hs
      simp only [List.mem_cons, List.not_mem_nil, or_false] at hs
      rcases hs with hs | hs | hs
      · exact hs ▸ hmtiseg
      · exact hs ▸ hpbseg
      · exact hs ▸ hsbseg
    obtain ⟨hp, hs⟩ := fieldLoop_segments_ok specs hex
      ((primaryBitmapOf hex).activeFields ++ (secondaryBitmapOf hex).activeFields)
      ⟨36, [], [], [mtiSegOf t hex, pbSegOf hex, sbSegOf hex]⟩
      (by simp only []; omega) hinit
    exact finalize_segments_ok hex _ _ _ _ hp hs
  · -- primary only
    have hpbseg : SegOK hex (pbSegOf hex) :=
      ⟨by norm_num [pbSegOf], by simp only [pbSegOf]; omega, rfl⟩
    have hinit : ∀ s ∈ [mtiSegOf t hex, pbSegOf hex], SegOK hex s := by
      intro s hs
      simp only [List.mem_cons, List.not_mem_nil, or_false] at hs
      rcases hs with hs | hs
      · exact hs ▸ hmtiseg
      · exact hs ▸ hpbseg
    obtain ⟨hp, hs⟩ := fieldLoop_segments_ok specs hex
      (primaryBitmapOf hex).activeFields
      ⟨20, [], [], [mtiSegOf t hex, pbSegOf hex]⟩
      (by simp only []; omega) hinit
    exact finalize_segments_ok hex _ _ _ _ hp hs

/-- Witness for C10 on a complete message with DE2 and DE3. -/
theorem claim10_segment_consistency_witness :
    (4 ≤ (normalizeHex ("0100".toList ++ buildBitmap [2, 3] ++
        "06123456000000".toList)).length ∧
      (normalizeHex ("0100".toList ++ buildBitmap [2, 3] ++
        "06123456000000".toList)).all isHexChar = true) ∧
    ∀ s ∈ (parseISO8583 sampleSpecs sampleMTITables
        ("0100".toList ++ buildBitmap [2, 3] ++ "06123456000000".toList)).hexSegments,
      s.startPos ≤ s.endPos ∧
        s.endPos ≤ (normalizeHex ("0100".toList ++ buildBitmap [2, 3] ++
          "06123456000000".toList)).length ∧
        s.hex = jsSubstring (normalizeHex ("0100".toList ++ buildBitmap [2, 3] ++
          "06123456000000".toList)) s.startPos s.endPos := by
  exact ⟨⟨by decide, by decide⟩,
    claim10_segment_consistency sampleSpecs sampleMTITables
      ("0100".toList ++ buildBitmap [2, 3] ++ "06123456000000".toList)
      (by decide) (by decide)⟩

/-! ## Claim C5 -/

/-- Each loop iteration appends at most one error, and never a
trailing-unparsed one (that kind is only created by the trailing-data
check after the loop). -/
theorem fieldStep_errors_shape (specs : Nat → Option FieldSpec) (hex : List Char)
    (f : Nat) (st : LoopSt) :
    (fieldStep specs hex f st).1.errors = st.errors ∨
    ∃ e, (fieldStep specs hex f st).1.errors = st.errors ++ [e] ∧
      ∀ c, e.kind ≠ .trailingUnparsed c := by
  cases hspec : specs f with
  | none =>
    rw [fieldStep_noSpec specs hex f st hspec]
    exact Or.inr ⟨_, rfl, by intro c; simp⟩
  | some spec =>
    by_cases hend : hex.length ≤ st.pos
    · rw [fieldStep_ranOut specs hex f st spec hspec hend]
      exact Or.inr ⟨_, rfl, by intro c; simp⟩
    · have hlt : st.pos < hex.length := by omega
      by_cases hfix : spec.format = "FIXED"
      · by_cases htr : hex.length < st.pos + fixedHexLen spec
        · rw [fieldStep_fixed_trunc specs hex f st spec hspec hfix hlt htr]
          exact Or.inr ⟨_, rfl, by intro c; simp⟩
        · rw [fieldStep_fixed_ok specs hex f st spec hspec hfix hlt (by omega)]
          exact Or.inl rfl
      · by_cases hll : spec.format = "LLVAR"
        · by_cases hpre : hex.length < st.pos + 2
          · rw [fieldStep_llvar_prefix_exhausted specs hex f st spec hspec hll hlt hpre]
            exact Or.inr ⟨_, rfl, by intro c; simp⟩
          · have hpre' : st.pos + 2 ≤ hex.length := by omega
            cases hparse : jsParseIntDec (jsSubstring hex st.pos (st.pos + 2)) with
            | none =>
              rw [fieldStep_llvar_invalid specs hex f st spec hspec hll hlt hpre'
                (Or.inl hparse)]
              exact Or.inr ⟨_, rfl, by intro c; simp⟩
            | some L =>
              by_cases hmax : spec.maxLength < L
              · rw [fieldStep_llvar_invalid specs hex f st spec hspec hll hlt hpre'
                  (Or.inr ⟨L, hparse, hmax⟩)]
                exact Or.inr ⟨_, rfl, by intro c; simp⟩
              · by_cases htr : hex.length < st.pos + 2 + varHexLen spec.type L
                · rw [fieldStep_llvar_data_trunc specs hex f st spec L hspec hll hlt
                    hpre' hparse (by omega) htr]
                  exact Or.inr ⟨_, rfl, by intro c; simp⟩
                · rw [fieldStep_llvar_ok specs hex f st spec L hspec hll hlt hpre'
                    hparse (by omega) (by omega)]
                  exact Or.inl rfl
        · by_cases hlll : spec.format = "LLLVAR"
          · by_cases hpre : hex.length < st.pos + 4
            · rw [fieldStep_lllvar_prefix_exhausted specs hex f st spec hspec hlll hlt hpre]
              exact Or.inr ⟨_, rfl, by intro c; simp⟩
            · have hpre' : st.pos + 4 ≤ hex.length := by omega
              cases hparse : jsParseIntDec (jsSubstring hex st.pos (st.pos + 4)) with
              | none =>
                rw [fieldStep_lllvar_invalid specs hex f st spec hspec hlll hlt hpre'
                  (Or.inl hparse)]
                exact Or.inr ⟨_, rfl, by intro c; simp⟩
              | some L =>
                by_cases hmax : spec.maxLength < L
                · rw [fieldStep_lllvar_invalid specs hex f st spec hspec hlll hlt hpre'
                    (Or.inr ⟨L, hparse, hmax⟩)]
                  exact Or.inr ⟨_, rfl, by intro c; simp⟩
                · by_cases htr : hex.length < st.pos + 4 + varHexLen spec.type L
                  · rw [fieldStep_lllvar_data_trunc specs hex f st spec L hspec hlll hlt
                      hpre' hparse (by omega) htr]
                    exact Or.inr ⟨_, rfl, by intro c; simp⟩
                  · rw [fieldStep_lllvar_ok specs hex f st spec L hspec hlll hlt hpre'
                      hparse (by omega) (by omega)]
                    exact Or.inl rfl
          · rw [fieldStep_unknown_format specs hex f st spec hspec hlt hfix hll hlll]
            exact Or.inl rfl

/-- The loop only appends errors, and never a trailing-unparsed one. -/
theorem fieldLoop_errors_shape (specs : Nat → Option FieldSpec) (hex : List Char)
    (l : List Nat) (st : LoopSt) :
    ∃ tail, (fieldLoop specs hex l st).errors = st.errors ++ tail ∧
      ∀ e ∈ tail, ∀ c, e.kind ≠ .trailingUnparsed c := by
  induction l generalizing st with
  | nil => exact ⟨[], by simp [fieldLoop], by simp⟩
  | cons f rest ih =>
    have hshape := fieldStep_errors_shape specs hex f st
    rcases hstep : fieldStep specs hex f st with ⟨st', cont⟩
    rw [hstep] at hshape
    cases cont with
    | true =>
      rw [fieldLoop_cons_continue specs hex f rest st st' hstep]
      obtain ⟨tail, htail, hkinds⟩ := ih st'
      rcases hshape with h | ⟨e, h, hk⟩
      · exact ⟨tail, by rw [htail, h], hkinds⟩
      · refine ⟨e :: tail, by rw [htail, h]; simp, ?_⟩
        intro e2 he2
        rcases List.mem_cons.mp he2 with he2 | he2
        · exact he2 ▸ hk
        · exact hkinds e2 he2
    | false =>
      rw [fieldLoop_cons_break specs hex f rest st st' hstep]
      rcases hshape with h | ⟨e, h, hk⟩
      · exact ⟨[], by rw [h]; simp, by simp⟩
      · refine ⟨[e], h, ?_⟩
        intro e2 he2
        rw [List.mem_singleton.mp he2]
        exact hk

/-- Membership in the loop-state error list is preserved by the loop. -/
theorem fieldLoop_errors_mono (specs : Nat → Option FieldSpec) (hex : List Char)
    (l : List Nat) (st : LoopSt) (e : ParseError) (he : e ∈ st.errors) :
    e ∈ (fieldLoop specs hex l st).errors := by
  obtain ⟨tail, htail, -⟩ := fieldLoop_errors_shape specs hex l st
  rw [htail]
  exact List.mem_append_left tail he

theorem take_extend_jsSubstring (hex : List Char) (a b : Nat) (hab : a ≤ b) :
    hex.take a ++ jsSubstring hex a b = hex.take b := by
  unfold jsSubstring
  rw [← List.take_add]
  congr 1
  omega

/-- An error kind is not an invalid-variable-length one. -/
def NotInvalidLen (e : ParseError) : Prop :=
  (∀ de ls, e.kind ≠ .invalidLLVARLen de ls) ∧
  (∀ de ls, e.kind ≠ .invalidLLLVARLen de ls)

/-- Tiling invariant of the field loop: as long as no invalid
variable-length prefix is hit (checked on the final error list, since
such an error, once logged, persists), the segments accumulated so far
tile `hex.take pos` exactly. -/
theorem fieldLoop_tiling (specs : Nat → Option FieldSpec) (hex : List Char)
    (l : List Nat) (st : LoopSt)
    (hpos : st.pos ≤ hex.length)
    (htile : (st.segments.map (fun s => s.hex)).flatten = hex.take st.pos)
    (hnoinv : ∀ e ∈ (fieldLoop specs hex l st).errors, NotInvalidLen e) :
    ((fieldLoop specs hex l st).segments.map (fun s => s.hex)).flatten =
      hex.take (fieldLoop specs hex l st).pos ∧
    (fieldLoop specs hex l st).pos ≤ hex.length := by
  induction l generalizing st with
  | nil => exact ⟨htile, hpos⟩
  | cons f rest ih =>
    cases hspec : specs f with
    | none =>
      rw [fieldLoop_cons_continue specs hex f rest st _
        (fieldStep_noSpec specs hex f st hspec)] at hnoinv ⊢
      exact ih _ hpos htile hnoinv
    | some spec =>
      by_cases hend : hex.length ≤ st.pos
      · rw [fieldLoop_cons_break specs hex f rest st _
          (fieldStep_ranOut specs hex f st spec hspec hend)]
        exact ⟨htile, hpos⟩
      · have hlt : st.pos < hex.length := by omega
        by_cases hfix : spec.format = "FIXED"
        · by_cases htr : hex.length < st.pos + fixedHexLen spec
          · rw [fieldLoop_cons_continue specs hex f rest st _
              (fieldStep_fixed_trunc specs hex f st spec hspec hfix hlt htr)] at hnoinv ⊢
            refine ih _ (le_refl _) ?_ hnoinv
            show ((st.segments ++ [mkFieldSeg f spec (hex.drop st.pos) st.pos hex.length]).map
              (fun s => s.hex)).flatten = hex.take hex.length
            rw [List.map_append, List.flatten_append, htile]
            simp [mkFieldSeg, List.take_append_drop, List.take_of_length_le]
          · have hsuff : st.pos + fixedHexLen spec ≤ hex.length := by omega
            rw [fieldLoop_cons_continue specs hex f rest st _
              (fieldStep_fixed_ok specs hex f st spec hspec hfix hlt hsuff)] at hnoinv ⊢
            refine ih _ hsuff ?_ hnoinv
            show ((st.segments ++ [mkFieldSeg f spec
              (jsSubstring hex st.pos (st.pos + fixedHexLen spec)) st.pos
              (st.pos + fixedHexLen spec)]).map (fun s => s.hex)).flatten =
              hex.take (st.pos + fixedHexLen spec)
            rw [List.map_append, List.flatten_append, htile]
            show hex.take st.pos ++ (jsSubstring hex st.pos (st.pos + fixedHexLen spec) ++ []) =
              hex.take (st.pos + fixedHexLen spec)
            rw [List.append_nil]
            exact take_extend_jsSubstring hex st.pos (st.pos + fixedHexLen spec) (by omega)
        · by_cases hll : spec.format = "LLVAR"
          · by_cases hpre : hex.length < st.pos + 2
            · rw [fieldLoop_cons_break specs hex f rest st _
                (fieldStep_llvar_prefix_exhausted specs hex f st spec hspec hll hlt hpre)]
              exact ⟨htile, hpos⟩
            · have hpre' : st.pos + 2 ≤ hex.length := by omega
              cases hparse : jsParseIntDec (jsSubstring hex st.pos (st.pos + 2)) with
              | none =>
                exfalso
                have hmem : (⟨.invalidLLVARLen f (jsSubstring hex st.pos (st.pos + 2)),
                    some st.pos, some f⟩ : ParseError) ∈
                    (fieldLoop specs hex (f :: rest) st).errors := by
                  rw [fieldLoop_cons_continue specs hex f rest st _
                    (fieldStep_llvar_invalid specs hex f st spec hspec hll hlt hpre'
                      (Or.inl hparse))]
                  exact fieldLoop_errors_mono specs hex rest _ _ (by simp)
                exact (hnoinv _ hmem).1 f _ rfl
              | some L =>
                by_cases hmax : spec.maxLength < L
                · exfalso
                  have hmem : (⟨.invalidLLVARLen f (jsSubstring hex st.pos (st.pos + 2)),
                      some st.pos, some f⟩ : ParseError) ∈
                      (fieldLoop specs hex (f :: rest) st).errors := by
                    rw [fieldLoop_cons_continue specs hex f rest st _
                      (fieldStep_llvar_invalid specs hex f st spec hspec hll hlt hpre'
                        (Or.inr ⟨L, hparse, hmax⟩))]
                    exact fieldLoop_errors_mono specs hex rest _ _ (by simp)
                  exact (hnoinv _ hmem).1 f _ rfl
                · have hmax' : L ≤ spec.maxLength := by omega
                  by_cases htr : hex.length < st.pos + 2 + varHexLen spec.type L
                  · rw [fieldLoop_cons_continue specs hex f rest st _
                      (fieldStep_llvar_data_trunc specs hex f st spec L hspec hll hlt
                        hpre' hparse hmax' htr)] at hnoinv ⊢
                    refine ih _ (le_refl _) ?_ hnoinv
                    show ((st.segments ++ [mkFieldSeg f spec
                      (jsSubstring hex st.pos (st.pos + 2) ++ hex.drop (st.pos + 2))
                      st.pos hex.length]).map (fun s => s.hex)).flatten =
                      hex.take hex.length
                    rw [List.map_append, List.flatten_append, htile]
                    show hex.take st.pos ++
                      ((jsSubstring hex st.pos (st.pos + 2) ++ hex.drop (st.pos + 2)) ++ []) =
                      hex.take hex.length
                    rw [List.append_nil, jsSubstring_prefix_drop hex st.pos 2 hpre',
                      jsSubstring_to_end, List.take_append_drop,
                      List.take_of_length_le (le_refl _)]
                  · have hsuff : st.pos + 2 + varHexLen spec.type L ≤ hex.length := by omega
                    rw [fieldLoop_cons_continue specs hex f rest st _
                      (fieldStep_llvar_ok specs hex f st spec L hspec hll hlt hpre'
                        hparse hmax' hsuff)] at hnoinv ⊢
                    refine ih _ hsuff ?_ hnoinv
                    show ((st.segments ++ [mkFieldSeg f spec
                      (jsSubstring hex st.pos (st.pos + 2) ++
                        jsSubstring hex (st.pos + 2) (st.pos + 2 + varHexLen spec.type L))
                      st.pos (st.pos + 2 + varHexLen spec.type L)]).map
                        (fun s => s.hex)).flatten =
                      hex.take (st.pos + 2 + varHexLen spec.type L)
                    rw [List.map_append, List.flatten_append, htile]
                    show hex.take st.pos ++
                      ((jsSubstring hex st.pos (st.pos + 2) ++
                        jsSubstring hex (st.pos + 2) (st.pos + 2 + varHexLen spec.type L)) ++ []) =
                      hex.take (st.pos + 2 + varHexLen spec.type L)
                    rw [List.append_nil, jsSubstring_append hex st.pos (st.pos + 2)
                      (st.pos + 2 + varHexLen spec.type L) (by omega) (by omega)]
                    exact take_extend_jsSubstring hex st.pos
                      (st.pos + 2 + varHexLen spec.type L) (by omega)
          · by_cases hlll : spec.format = "LLLVAR"
            · by_cases hpre : hex.length < st.pos + 4
              · rw [fieldLoop_cons_break specs hex f rest st _
                  (fieldStep_lllvar_prefix_exhausted specs hex f st spec hspec hlll hlt hpre)]
                exact ⟨htile, hpos⟩
              · have hpre' : st.pos + 4 ≤ hex.length := by omega
                cases hparse : jsParseIntDec (jsSubstring hex st.pos (st.pos + 4)) with
                | none =>
                  exfalso
                  have hmem : (⟨.invalidLLLVARLen f (jsSubstring hex st.pos (st.pos + 4)),
                      some st.pos, some f⟩ : ParseError) ∈
                      (fieldLoop specs hex (f :: rest) st).errors := by
                    rw [fieldLoop_cons_continue specs hex f rest st _
                      (fieldStep_lllvar_invalid specs hex f st spec hspec hlll hlt hpre'
                        (Or.inl hparse))]
                    exact fieldLoop_errors_mono specs hex rest _ _ (by simp)
                  exact (hnoinv _ hmem).2 f _ rfl
                | some L =>
                  by_cases hmax : spec.maxLength < L
                  · exfalso
                    have hmem : (⟨.invalidLLLVARLen f (jsSubstring hex st.pos (st.pos + 4)),
                        some st.pos, some f⟩ : ParseError) ∈
                        (fieldLoop specs hex (f :: rest) st).errors := by
                      rw [fieldLoop_cons_continue specs hex f rest st _
                        (fieldStep_lllvar_invalid specs hex f st spec hspec hlll hlt hpre'
                          (Or.inr ⟨L, hparse, hmax⟩))]
                      exact fieldLoop_errors_mono specs hex rest _ _ (by simp)
                    exact (hnoinv _ hmem).2 f _ rfl
                  · have hmax' : L ≤ spec.maxLength := by omega
                    by_cases htr : hex.length < st.pos + 4 + varHexLen spec.type L
                    · rw [fieldLoop_cons_continue specs hex f rest st _
                        (fieldStep_lllvar_data_trunc specs hex f st spec L hspec hlll hlt
                          hpre' hparse hmax' htr)] at hnoinv ⊢
                      refine ih _ (le_refl _) ?_ hnoinv
                      show ((st.segments ++ [mkFieldSeg f spec
                        (jsSubstring hex st.pos (st.pos + 4) ++ hex.drop (st.pos + 4))
                        st.pos hex.length]).map (fun s => s.hex)).flatten =
                        hex.take hex.length
                      rw [List.map_append, List.flatten_append, htile]
                      show hex.take st.pos ++
                        ((jsSubstring hex st.pos (st.pos + 4) ++ hex.drop (st.pos + 4)) ++ []) =
                        hex.take hex.length
                      rw [List.append_nil, jsSubstring_prefix_drop hex st.pos 4 hpre',
                        jsSubstring_to_end, List.take_append_drop,
                        List.take_of_length_le (le_refl _)]
                    · have hsuff : st.pos + 4 + varHexLen spec.type L ≤ hex.length := by omega
                      rw [fieldLoop_cons_continue specs hex f rest st _
                        (fieldStep_lllvar_ok specs hex f st spec L hspec hlll hlt hpre'
                          hparse hmax' hsuff)] at hnoinv ⊢
                      refine ih _ hsuff ?_ hnoinv
                      show ((st.segments ++ [mkFieldSeg f spec
                        (jsSubstring hex st.pos (st.pos + 4) ++
                          jsSubstring hex (st.pos + 4) (st.pos + 4 + varHexLen spec.type L))
                        st.pos (st.pos + 4 + varHexLen spec.type L)]).map
                          (fun s => s.hex)).flatten =
                        hex.take (st.pos + 4 + varHexLen spec.type L)
                      rw [List.map_append, List.flatten_append, htile]
                      show hex.take st.pos ++
                        ((jsSubstring hex st.pos (st.pos + 4) ++
                          jsSubstring hex (st.pos + 4) (st.pos + 4 + varHexLen spec.type L)) ++ []) =
                        hex.take (st.pos + 4 + varHexLen spec.type L)
                      rw [List.append_nil, jsSubstring_append hex st.pos (st.pos + 4)
                        (st.pos + 4 + varHexLen spec.type L) (by omega) (by omega)]
                      exact take_extend_jsSubstring hex st.pos
                        (st.pos + 4 + varHexLen spec.type L) (by omega)
            · rw [fieldLoop_cons_continue specs hex f rest st _
                (fieldStep_unknown_format specs hex f st spec hspec hlt hfix hll hlll)]
                at hnoinv ⊢
              refine ih _ hpos ?_ hnoinv
              show ((st.segments ++ [mkFieldSeg f spec [] st.pos st.pos]).map
                (fun s => s.hex)).flatten = hex.take st.pos
              rw [List.map_append, List.flatten_append, htile]
              simp [mkFieldSeg]

theorem jsSubstring_zero_left (hex : List Char) (b : Nat) :
    jsSubstring hex 0 b = hex.take b := by
  unfold jsSubstring
  rw [List.drop_zero, Nat.sub_zero]

theorem finalize_errors_sup (hex : List Char) (m : Option MTIInfo)
    (pb sb : Option BitmapInfo) (st : LoopSt) (e : ParseError)
    (he : e ∈ st.errors) : e ∈ (finalize hex m pb sb st).errors := by
  unfold finalize
  split
  · exact List.mem_append_left _ he
  · exact he

theorem finalize_tiling (hex : List Char) (m : Option MTIInfo)
    (pb sb : Option BitmapInfo) (st : LoopSt)
    (hpos : st.pos ≤ hex.length)
    (htile : (st.segments.map (fun s => s.hex)).flatten = hex.take st.pos)
    (hnotrail : ∀ e ∈ st.errors, ∀ c, e.kind ≠ .trailingUnparsed c) :
    (((finalize hex m pb sb st).hexSegments.map (fun s => s.hex)).flatten =
      hex.take (((finalize hex m pb sb st).hexSegments.map (fun s => s.hex)).flatten.length)) ∧
    ((∃ e ∈ (finalize hex m pb sb st).errors, ∃ c, e.kind = .trailingUnparsed c) →
      ((finalize hex m pb sb st).hexSegments.map (fun s => s.hex)).flatten = hex) := by
  have hflat : (((st.segments ++
      [({ hex := hex.drop st.pos, label := "Unparsed Data", category := "error",
          startPos := st.pos, endPos := hex.length, de := none } : HexSegment)]).map
      (fun s => s.hex)).flatten : List Char) = hex := by
    rw [List.map_append, List.flatten_append, htile]
    show hex.take st.pos ++ (hex.drop st.pos ++ []) = hex
    rw [List.append_nil, List.take_append_drop]
  unfold finalize
  split
  · -- trailing segment appended
    constructor
    · rw [hflat, List.take_of_length_le (le_refl _)]
    · intro h
      rw [hflat]
  · constructor
    · rw [htile, List.length_take, Nat.min_eq_left hpos]
    · rintro ⟨e, he, c, hc⟩
      exact absurd hc (hnotrail e he c)

/-- Counterexample to claim C5 as stated: MTI + bitmap{2,3} + `"99"`
(an invalid LLVAR prefix for DE2, skipped without a segment) + DE3's
payload.  The field loop completes, but the skipped prefix leaves a gap:
the concatenated segment hexes are not a prefix of the normalized input
(positions 20-21 hold `"99"`, while the concatenation continues with
DE3's `"000000"`). -/
theorem claim5_counterexample :
    ¬((((parseISO8583 sampleSpecs sampleMTITables
        ("0100".toList ++ buildBitmap [2, 3] ++ "99".toList ++ "000000".toList)).hexSegments.map
        (fun s => s.hex)).flatten) =
      (normalizeHex ("0100".toList ++ buildBitmap [2, 3] ++ "99".toList ++ "000000".toList)).take
        ((((parseISO8583 sampleSpecs sampleMTITables
          ("0100".toList ++ buildBitmap [2, 3] ++ "99".toList ++ "000000".toList)).hexSegments.map
          (fun s => s.hex)).flatten).length)) := by
  decide

/-- Claim C5 (amended): for every valid-hex input on which no invalid
variable-length prefix error occurs, concatenating the `hexSegments` in
order reconstructs a prefix of the normalized input hex string exactly,
with no gaps or overlaps, and whenever a trailing-unparsed error was
logged the concatenation covers the whole normalized input (the trailing
segment covers the remainder).  The restriction is forced: an invalid
LLVAR/LLLVAR length prefix is skipped without emitting a segment,
leaving an uncovered 2- or 4-character gap. -/
theorem claim5_segment_tiling (specs : Nat → Option FieldSpec) (t : MTITables)
    (input : List Char)
    (h4 : 4 ≤ (normalizeHex input).length)
    (hhex : (normalizeHex input).all isHexChar = true)
    (hnoinv : ∀ e ∈ (parseISO8583 specs t input).errors, NotInvalidLen e) :
    (((parseISO8583 specs t input).hexSegments.map (fun s => s.hex)).flatten =
      (normalizeHex input).take
        (((parseISO8583 specs t input).hexSegments.map (fun s => s.hex)).flatten.length)) ∧
    ((∃ e ∈ (parseISO8583 specs t input).errors, ∃ c, e.kind = .trailingUnparsed c) →
      ((parseISO8583 specs t input).hexSegments.map (fun s => s.hex)).flatten =
        normalizeHex input) := by
  rw [parseISO8583_eq_parseMain specs t input (by omega) hhex] at hnoinv ⊢
  set hex := normalizeHex input with hhexdef
  have hmtitile : ((([mtiSegOf t hex, pbSegOf hex] : List HexSegment).map
      (fun s => s.hex)).flatten : List Char) = hex.take 20 := by
    show jsSubstring hex 0 4 ++ (jsSubstring hex 4 20 ++ []) = hex.take 20
    rw [List.append_nil, jsSubstring_append hex 0 4 20 (by omega) (by omega),
      jsSubstring_zero_left]
  unfold parseMain at hnoinv ⊢
  split_ifs at hnoinv ⊢ with h20 hsec h36
  · -- short-for-primary-bitmap early return
    have hflat : ((((shortForBitmapResult t hex).hexSegments).map
        (fun s => s.hex)).flatten : List Char) = hex.take 4 := by
      show jsSubstring hex 0 4 ++ [] = hex.take 4
      rw [List.append_nil, jsSubstring_zero_left]
    constructor
    · rw [hflat, List.length_take, Nat.min_eq_left (by omega)]
    · rintro ⟨e, he, c, hc⟩
      have : e = ⟨.hexTooShortPrimary, some 4, none⟩ := by
        simpa [shortForBitmapResult] using he
      rw [this] at hc
      cases hc
  · -- secondary indicated but stream too short
    have h20' : 20 ≤ hex.length := by omega
    obtain ⟨htile, hpos⟩ := fieldLoop_tiling specs hex
      (primaryBitmapOf hex).activeFields
      ⟨20, [⟨.secondaryTooShort, some 20, none⟩], [], [mtiSegOf t hex, pbSegOf hex]⟩
      (by show (20 : Nat) ≤ hex.length; omega) hmtitile
      (fun e he => hnoinv e (finalize_errors_sup hex _ _ _ _ e he))
    refine finalize_tiling hex _ _ _ _ hpos htile ?_
    obtain ⟨tail, htail, hkinds⟩ := fieldLoop_errors_shape specs hex
      (primaryBitmapOf hex).activeFields
      ⟨20, [⟨.secondaryTooShort, some 20, none⟩], [], [mtiSegOf t hex, pbSegOf hex]⟩
    rw [htail]
    intro e he c
    rcases List.mem_append.mp he with he | he
    · have : e = ⟨.secondaryTooShort, some 20, none⟩ := by simpa using he
      rw [this]
      simp
    · exact hkinds e he c
  · -- secondary present
    have h36' : 36 ≤ hex.length := by omega
    have htile0 : ((([mtiSegOf t hex, pbSegOf hex, sbSegOf hex] : List HexSegment).map
        (fun s => s.hex)).flatten : List Char) = hex.take 36 := by
      show jsSubstring hex 0 4 ++ (jsSubstring hex 4 20 ++ (jsSubstring hex 20 36 ++ [])) =
        hex.take 36
      rw [List.append_nil, jsSubstring_append hex 4 20 36 (by omega) (by omega),
        jsSubstring_append hex 0 4 36 (by omega) (by omega), jsSubstring_zero_left]
    obtain ⟨htile, hpos⟩ := fieldLoop_tiling specs hex
      ((primaryBitmapOf hex).activeFields ++ (secondaryBitmapOf hex).activeFields)
      ⟨36, [], [], [mtiSegOf t hex, pbSegOf hex, sbSegOf hex]⟩
      (by show (36 : Nat) ≤ hex.length; omega) htile0
      (fun e he => hnoinv e (finalize_errors_sup hex _ _ _ _ e he))
    refine finalize_tiling hex _ _ _ _ hpos htile ?_
    obtain ⟨tail, htail, hkinds⟩ := fieldLoop_errors_shape specs hex
      ((primaryBitmapOf hex).activeFields ++ (secondaryBitmapOf hex).activeFields)
      ⟨36, [], [], [mtiSegOf t hex, pbSegOf hex, sbSegOf hex]⟩
    rw [htail]
    intro e he c
    rcases List.mem_append.mp he with he | he
    · cases he
    · exact hkinds e he c
  · -- primary only
    have h20' : 20 ≤ hex.length := by omega
    obtain ⟨htile, hpos⟩ := fieldLoop_tiling specs hex
      (primaryBitmapOf hex).activeFields
      ⟨20, [], [], [mtiSegOf t hex, pbSegOf hex]⟩
      (by show (20 : Nat) ≤ hex.length; omega) hmtitile
      (fun e he => hnoinv e (finalize_errors_sup hex _ _ _ _ e he))
    refine finalize_tiling hex _ _ _ _ hpos htile ?_
    obtain ⟨tail, htail, hkinds⟩ := fieldLoop_errors_shape specs hex
      (primaryBitmapOf hex).activeFields
      ⟨20, [], [], [mtiSegOf t hex, pbSegOf hex]⟩
    rw [htail]
    intro e he c
    rcases List.mem_append.mp he with he | he
    · cases he
    · exact hkinds e he c

/-- Witness for the amended C5 on a clean message with DE2 and DE3 plus
two trailing stray hex characters (trailing segment covers the
remainder). -/
theorem claim5_segment_tiling_witness :
    (4 ≤ (normalizeHex ("0100".toList ++ buildBitmap [2, 3] ++
        "06123456000000".toList ++ "AB".toList)).length ∧
      (normalizeHex ("0100".toList ++ buildBitmap [2, 3] ++
        "06123456000000".toList ++ "AB".toList)).all isHexChar = true ∧
      (∀ e ∈ (parseISO8583 sampleSpecs sampleMTITables ("0100".toList ++
          buildBitmap [2, 3] ++ "06123456000000".toList ++ "AB".toList)).errors,
        NotInvalidLen e)) ∧
    ((parseISO8583 sampleSpecs sampleMTITables ("0100".toList ++ buildBitmap [2, 3] ++
        "06123456000000".toList ++ "AB".toList)).hexSegments.map
      (fun s => s.hex)).flatten =
      normalizeHex ("0100".toList ++ buildBitmap [2, 3] ++
        "06123456000000".toList ++ "AB".toList) := by
  have hnoinv : ∀ e ∈ (parseISO8583 sampleSpecs sampleMTITables ("0100".toList ++
      buildBitmap [2, 3] ++ "06123456000000".toList ++ "AB".toList)).errors,
      NotInvalidLen e := by
    intro e he
    have : e = ⟨.trailingUnparsed 2, some 34, none⟩ := by
      have hl : (parseISO8583 sampleSpecs sampleMTITables ("0100".toList ++
          buildBitmap [2, 3] ++ "06123456000000".toList ++ "AB".toList)).errors =
          [⟨.trailingUnparsed 2, some 34, none⟩] := by decide
      rw [hl] at he
      simpa using he
    rw [this]
    exact ⟨(fun de ls h => by cases h), (fun de ls h => by cases h)⟩
  refine ⟨⟨by decide, by decide, hnoinv⟩, ?_⟩
  exact (claim5_segment_tiling sampleSpecs sampleMTITables
    ("0100".toList ++ buildBitmap [2, 3] ++ "06123456000000".toList ++ "AB".toList)
    (by decide) (by decide) hnoinv).2
    ⟨⟨.trailingUnparsed 2, some 34, none⟩, by decide, 2, rfl⟩

/-! ## Claim C3: bitmap build/decode composition -/

/-- Rendering of one bit as the binary-string character. -/
def bitChar (b : Bool) : Char := if b then '1' else '0'

theorem hexToBinary_byteHex_ofBits :
    ∀ x0 x1 x2 x3 x4 x5 x6 x7 : Bool,
      hexToBinary (byteHex (ofBits [x0, x1, x2, x3, x4, x5, x6, x7])) =
        [bitChar x0, bitChar x1, bitChar x2, bitChar x3,
         bitChar x4, bitChar x5, bitChar x6, bitChar x7] := by
  decide

theorem hexToBinary_append (a b : List Char) :
    hexToBinary (a ++ b) = hexToBinary a ++ hexToBinary b := by
  unfold hexToBinary
  exact List.flatMap_append a b _

theorem hexToBinary_packBitmapHex (bit : Nat → Bool) :
    hexToBinary (packBitmapHex bit) =
      (List.range 64).map (fun j => bitChar (bit j)) := by
  have h8 : List.range 8 = [0, 1, 2, 3, 4, 5, 6, 7] := rfl
  have h64 : List.range 64 =
      [0, 1, 2, 3, 4, 5, 6, 7, 8, 9, 10, 11, 12, 13, 14, 15, 16, 17, 18, 19,
       20, 21, 22, 23, 24, 25, 26, 27, 28, 29, 30, 31, 32, 33, 34, 35, 36, 37,
       38, 39, 40, 41, 42, 43, 44, 45, 46, 47, 48, 49, 50, 51, 52, 53, 54, 55,
       56, 57, 58, 59, 60, 61, 62, 63] := rfl
  unfold packBitmapHex
  rw [h8, h64]
  simp only [List.flatMap_cons, List.flatMap_nil, List.map_cons, List.map_nil,
    List.append_nil]
  simp only [hexToBinary_append, hexToBinary_byteHex_ofBits]
  norm_num

theorem onesPositions_map_range' (n : Nat) :
    ∀ (a : Nat) (g : Nat → Bool),
      onesPositions ((List.range' a n).map fun j => bitChar (g j)) a =
        ((List.range' a n).filter g).map (· + 1) := by
  induction n with
  | zero => intro a g; rfl
  | succ n ih =>
    intro a g
    have hr : List.range' a (n + 1) = a :: List.range' (a + 1) n := rfl
    rw [hr]
    simp only [List.map_cons]
    show (if bitChar (g a) = '1' then [a + 1] else []) ++
      onesPositions ((List.range' (a + 1) n).map fun j => bitChar (g j)) (a + 1) = _
    cases hg : g a with
    | true =>
      rw [List.filter_cons_of_pos hg]
      have : bitChar true = '1' := rfl
      rw [this, if_pos rfl, ih (a + 1) g]
      rfl
    | false =>
      rw [List.filter_cons_of_neg (by rw [hg]; exact Bool.false_ne_true)]
      have : bitChar false = '0' := rfl
      rw [this, if_neg (by decide), ih (a + 1) g]
      rfl

theorem nat_contains_iff (l : List Nat) (x : Nat) :
    l.contains x = true ↔ x ∈ l := by
  simp

theorem filter_contains_range' (n : Nat) :
    ∀ (a c : Nat) (fs : List Nat), List.Sorted (· < ·) fs →
      (∀ f ∈ fs, a + c ≤ f ∧ f < a + c + n) →
      ((List.range' a n).filter (fun j => fs.contains (j + c))).map (· + c) = fs := by
  induction n with
  | zero =>
    intro a c fs _ hb
    have : fs = [] := List.eq_nil_iff_forall_not_mem.mpr fun f hf => by
      have := hb f hf
      omega
    rw [this]
    rfl
  | succ n ih =>
    intro a c fs hsort hb
    have hr : List.range' a (n + 1) = a :: List.range' (a + 1) n := rfl
    rw [hr]
    by_cases hmem : (a + c) ∈ fs
    · -- the head of fs must be a + c
      rcases fs with _ | ⟨f0, fs'⟩
      · cases hmem
      · have hs := List.sorted_cons.mp hsort
        have hf0 : f0 = a + c := by
          rcases List.mem_cons.mp hmem with h | h
          · omega
          · have h1 := hs.1 _ h
            have h2 := (hb f0 (List.mem_cons_self f0 fs')).1
            omega
        rw [List.filter_cons_of_pos (by
          rw [nat_contains_iff]
          exact hmem)]
        have hcongr : (List.range' (a + 1) n).filter
            (fun j => (f0 :: fs').contains (j + c)) =
            (List.range' (a + 1) n).filter (fun j => fs'.contains (j + c)) := by
          apply List.filter_congr
          intro j hj
          have hjge : a + 1 ≤ j := (List.mem_range'_1.mp hj).1
          cases hc : fs'.contains (j + c) with
          | true =>
            rw [nat_contains_iff] at hc ⊢
            exact List.mem_cons_of_mem f0 hc
          | false =>
            have : ¬(j + c) ∈ (f0 :: fs') := by
              intro hmem2
              rcases List.mem_cons.mp hmem2 with h | h
              · omega
              · rw [← nat_contains_iff] at h
                rw [h] at hc
                cases hc
            simp [this]
        rw [hcongr]
        have htail := ih (a + 1) c fs' hs.2 (by
          intro f hf
          have h1 := hs.1 _ hf
          have h2 := (hb f (List.mem_cons_of_mem f0 hf)).2
          omega)
        rw [List.map_cons, htail, hf0]
    · rw [List.filter_cons_of_neg (by
        cases hc : fs.contains (a + c) with
        | true =>
          rw [nat_contains_iff] at hc
          exact absurd hc hmem
        | false => exact Bool.false_ne_true)]
      exact ih (a + 1) c fs hsort (by
        intro f hf
        have := hb f hf
        have : f ≠ a + c := fun h => hmem (h ▸ hf)
        omega)

theorem decodeBitmap_pack_activeFields (bit : Nat → Bool) :
    (decodeBitmap (packBitmapHex bit)).activeFields =
      ((List.range' 0 64).filter bit).map (· + 1) := by
  show onesPositions (hexToBinary (packBitmapHex bit)) 0 = _
  rw [hexToBinary_packBitmapHex, List.range_eq_range']
  exact onesPositions_map_range' 64 0 bit

theorem decodeBitmap_pack_get0 (bit : Nat → Bool) :
    (decodeBitmap (packBitmapHex bit)).binary.get? 0 = some (bitChar (bit 0)) := by
  show (hexToBinary (packBitmapHex bit)).get? 0 = _
  rw [hexToBinary_packBitmapHex]
  rfl

theorem decodeBitmap_buildBitmap (fs : List Nat)
    (hsort : List.Sorted (· < ·) fs) (hb : ∀ f ∈ fs, 1 ≤ f ∧ f ≤ 64) :
    (decodeBitmap (buildBitmap fs)).activeFields = fs := by
  unfold buildBitmap
  rw [decodeBitmap_pack_activeFields]
  exact filter_contains_range' 64 0 1 fs hsort (by
    intro f hf
    have := hb f hf
    omega)

theorem decodeBitmap_secondary_pack (fs : List Nat)
    (hsort : List.Sorted (· < ·) fs) (hb : ∀ f ∈ fs, 65 ≤ f ∧ f ≤ 128) :
    ((decodeBitmap (packBitmapHex fun i => fs.contains (i + 65))).activeFields).map
      (· + 64) = fs := by
  rw [decodeBitmap_pack_activeFields, List.map_map]
  have hmapeq : ((List.range' 0 64).filter fun j => fs.contains (j + 65)).map
      ((· + 64) ∘ (· + 1)) =
      ((List.range' 0 64).filter fun j => fs.contains (j + 65)).map (· + 65) :=
    List.map_congr_left fun j _ => by
      show j + 1 + 64 = j + 65
      omega
  rw [hmapeq]
  exact filter_contains_range' 64 0 65 fs hsort (by
    intro f hf
    have := hb f hf
    omega)

/-! ## Claim C3: valid wire payloads -/

/-- Upper-case hex-digit character (the alphabet of a normalized
message). -/
def isUpperHex (c : Char) : Bool :=
  ('0' ≤ c && c ≤ '9') || ('A' ≤ c && c ≤ 'F')

/-- The canonical 2-decimal-digit LLVAR length prefix for `L ≤ 99`. -/
def encodeDec2 (L : Nat) : List Char :=
  [Char.ofNat (48 + L / 10), Char.ofNat (48 + L % 10)]

/-- The canonical 4-character LLLVAR length prefix for `L ≤ 999`. -/
def encodeDec4 (L : Nat) : List Char :=
  [Char.ofNat (48 + L / 1000), Char.ofNat (48 + L / 100 % 10),
   Char.ofNat (48 + L / 10 % 10), Char.ofNat (48 + L % 10)]

/-- A well-formed field-specification entry for round-tripping.
Modelled from the spec: `maxLength` is a positive integer and `format`
is one of the three tags (spec §3); the spec's §4.3 variable-length
rules speak only of numeric ("digits") and text ("characters") units,
so binary and the hybrid `"x+n"` type are FIXED-only. -/
def SpecWF (spec : FieldSpec) : Prop :=
  0 < spec.maxLength ∧
  (spec.format = "FIXED" ∨ spec.format = "LLVAR" ∨ spec.format = "LLLVAR") ∧
  (spec.format ≠ "FIXED" → spec.type ≠ "b" ∧ spec.type ≠ "x+n")

/-- A valid wire payload for a field: upper-case hex, correctly sized
for a FIXED field, or a canonical in-bounds decimal length prefix
followed by correctly sized data for LLVAR/LLLVAR. -/
def ValidPayload (spec : FieldSpec) (v : List Char) : Prop :=
  v.all isUpperHex = true ∧
  ((spec.format = "FIXED" ∧ v.length = fixedHexLen spec) ∨
   (spec.format = "LLVAR" ∧ ∃ L data, v = encodeDec2 L ++ data ∧
     L ≤ spec.maxLength ∧ L ≤ 99 ∧ data.length = varHexLen spec.type L) ∨
   (spec.format = "LLLVAR" ∧ ∃ L data, v = encodeDec4 L ++ data ∧
     L ≤ spec.maxLength ∧ L ≤ 999 ∧ data.length = varHexLen spec.type L))

/-- The decoded value the round-trip claim expects for a payload:
byte-for-byte hex for numeric/binary, printable-character conversion for
text types, with the variable-length prefix stripped. -/
def decodeExpected (spec : FieldSpec) (v : List Char) : List Char :=
  if spec.format = "FIXED" then
    (if spec.type = "n" || spec.type = "x+n" || spec.type = "b" then v
     else hexToAscii v)
  else if spec.format = "LLVAR" then
    (if spec.type = "n" then v.drop 2 else hexToAscii (v.drop 2))
  else
    (if spec.type = "n" then v.drop 4 else hexToAscii (v.drop 4))

/-- The (field number, decoded value) pair the round trip expects per
item. -/
def expectedPair (specs : Nat → Option FieldSpec) (p : Nat × List Char) :
    Nat × List Char :=
  (p.1, match specs p.1 with
    | some s => decodeExpected s p.2
    | none => [])

theorem digitChar_facts (d : Nat) (hd : d ≤ 9) :
    (Char.ofNat (48 + d)).toNat = 48 + d ∧
    (Char.ofNat (48 + d)).isDigit = true ∧
    isUpperHex (Char.ofNat (48 + d)) = true := by
  interval_cases d <;> exact ⟨by decide, by decide, by decide⟩

theorem jsParseIntDec_encodeDec2 (L : Nat) (h : L ≤ 99) :
    jsParseIntDec (encodeDec2 L) = some L := by
  have h1 := digitChar_facts (L / 10) (by omega)
  have h0 := digitChar_facts (L % 10) (by omega)
  show (if (Char.ofNat (48 + L / 10)).isDigit then
      some (jsParseIntDec.go [Char.ofNat (48 + L / 10), Char.ofNat (48 + L % 10)] 0)
    else none) = some L
  rw [h1.2.1, if_pos rfl]
  congr 1
  show (if (Char.ofNat (48 + L / 10)).isDigit then
      jsParseIntDec.go [Char.ofNat (48 + L % 10)]
        (10 * 0 + ((Char.ofNat (48 + L / 10)).toNat - 48))
    else 0) = L
  rw [h1.2.1, if_pos rfl]
  show (if (Char.ofNat (48 + L % 10)).isDigit then
      jsParseIntDec.go []
        (10 * (10 * 0 + ((Char.ofNat (48 + L / 10)).toNat - 48)) +
          ((Char.ofNat (48 + L % 10)).toNat - 48))
    else _) = L
  rw [h0.2.1, if_pos rfl, h1.1, h0.1]
  show 10 * (10 * 0 + (48 + L / 10 - 48)) + (48 + L % 10 - 48) = L
  omega

theorem jsParseIntDec_encodeDec4 (L : Nat) (h : L ≤ 999) :
    jsParseIntDec (encodeDec4 L) = some L := by
  have h3 := digitChar_facts (L / 1000) (by omega)
  have h2 := digitChar_facts (L / 100 % 10) (by omega)
  have h1 := digitChar_facts (L / 10 % 10) (by omega)
  have h0 := digitChar_facts (L % 10) (by omega)
  show (if (Char.ofNat (48 + L / 1000)).isDigit then
      some (jsParseIntDec.go [Char.ofNat (48 + L / 1000), Char.ofNat (48 + L / 100 % 10),
        Char.ofNat (48 + L / 10 % 10), Char.ofNat (48 + L % 10)] 0)
    else none) = some L
  rw [h3.2.1, if_pos rfl]
  congr 1
  simp only [jsParseIntDec.go, h3.2.1, h2.2.1, h1.2.1, h0.2.1, if_pos rfl, if_true,
    h3.1, h2.1, h1.1, h0.1]
  omega

theorem upperHex_toNat_le (c : Char) (h : isUpperHex c = true) :
    48 ≤ c.toNat ∧ c.toNat ≤ 70 := by
  unfold isUpperHex at h
  simp only [Bool.or_eq_true, Bool.and_eq_true, decide_eq_true_eq] at h
  have h0 : ('0' : Char).val.toNat = 48 := rfl
  have h9 : ('9' : Char).val.toNat = 57 := rfl
  have hA : ('A' : Char).val.toNat = 65 := rfl
  have hF : ('F' : Char).val.toNat = 70 := rfl
  show 48 ≤ c.val.toNat ∧ c.val.toNat ≤ 70
  rcases h with ⟨h1, h2⟩ | ⟨h1, h2⟩
  · have ha : ('0' : Char).val.toNat ≤ c.val.toNat := Char.le_def.mp h1
    have hb : c.val.toNat ≤ ('9' : Char).val.toNat := Char.le_def.mp h2
    omega
  · have ha : ('A' : Char).val.toNat ≤ c.val.toNat := Char.le_def.mp h1
    have hb : c.val.toNat ≤ ('F' : Char).val.toNat := Char.le_def.mp h2
    omega

theorem upperHex_toUpper (c : Char) (h : isUpperHex c = true) :
    Char.toUpper c = c := by
  have hle := upperHex_toNat_le c h
  unfold Char.toUpper
  rw [if_neg]
  rintro ⟨h97, -⟩
  omega

theorem upperHex_notSpace (c : Char) (h : isUpperHex c = true) :
    isJsSpace c = false := by
  have hle := upperHex_toNat_le c h
  unfold isJsSpace
  simp only [Bool.or_eq_false_iff, decide_eq_false_iff_not]
  refine ⟨⟨⟨⟨⟨?_, ?_⟩, ?_⟩, ?_⟩, ?_⟩, ?_⟩ <;>
  · intro he
    rw [he] at hle
    revert hle
    decide

theorem upperHex_isHexChar (c : Char) (h : isUpperHex c = true) :
    isHexChar c = true := by
  unfold isUpperHex at h
  unfold isHexChar
  simp only [Bool.or_eq_true, Bool.and_eq_true, decide_eq_true_eq] at h ⊢
  tauto

theorem normalizeHex_of_upperHex (l : List Char) (h : l.all isUpperHex = true) :
    normalizeHex l = l := by
  unfold normalizeHex
  have hall := List.all_eq_true.mp h
  rw [List.filter_eq_self.mpr (fun c hc => by
    rw [upperHex_notSpace c (hall c hc)]
    rfl)]
  rw [List.map_congr_left (fun c hc => upperHex_toUpper c (hall c hc))]
  simp

theorem fixedValue_decodeExpected (spec : FieldSpec) (v : List Char)
    (hfmt : spec.format = "FIXED") :
    fixedValue spec v = decodeExpected spec v := by
  unfold fixedValue decodeExpected
  rw [hfmt, if_pos rfl]
  by_cases hn : (spec.type = "n" || spec.type = "x+n") = true
  · rw [if_pos hn, if_pos (by
      simp only [Bool.or_eq_true, decide_eq_true_eq] at hn ⊢
      tauto)]
  · rw [if_neg hn]
    by_cases hb : spec.type = "b"
    · rw [if_pos hb, if_pos (by
        simp only [Bool.or_eq_true, decide_eq_true_eq]
        tauto)]
    · rw [if_neg hb, if_neg (by
        simp only [Bool.or_eq_true, decide_eq_true_eq] at hn ⊢
        push_neg
        constructor
        · constructor
          · intro h
            exact hn (Or.inl h)
          · intro h
            exact hn (Or.inr h)
        · exact hb)]

/-- A valid payload at the cursor parses into exactly one field whose
decoded value is the expected one, consuming exactly the payload. -/
theorem fieldStep_valid_payload (specs : Nat → Option FieldSpec) (hex : List Char)
    (f : Nat) (st : LoopSt) (spec : FieldSpec) (v tail : List Char)
    (hspec : specs f = some spec) (hwf : SpecWF spec) (hv : ValidPayload spec v)
    (hdrop : hex.drop st.pos = v ++ tail) :
    ∃ (pf : ParsedField) (sg : HexSegment),
      fieldStep specs hex f st =
        ({ pos := st.pos + v.length, errors := st.errors,
           fields := st.fields ++ [pf], segments := st.segments ++ [sg] }, true) ∧
      pf.de = f ∧ pf.decodedValue = decodeExpected spec v := by
  have hlendrop : hex.length - st.pos = v.length + tail.length := by
    have h := congrArg List.length hdrop
    rw [List.length_drop, List.length_append] at h
    exact h
  have hvpos : 0 < v.length := by
    rcases hv.2 with ⟨hfmt, hlv⟩ | ⟨hfmt, L, data, hvdef, h1, h2, h3⟩ |
      ⟨hfmt, L, data, hvdef, h1, h2, h3⟩
    · rw [hlv]
      unfold fixedHexLen
      have := hwf.1
      split_ifs <;> omega
    · rw [hvdef]
      simp [encodeDec2]
    · rw [hvdef]
      simp [encodeDec4]
  have hpos : st.pos < hex.length := by
    by_contra hcontra
    push_neg at hcontra
    rw [List.drop_eq_nil_of_le hcontra] at hdrop
    have h := congrArg List.length hdrop
    simp at h
    omega
  have hfit : st.pos + v.length ≤ hex.length := by omega
  have hsub : ∀ k, k ≤ v.length → jsSubstring hex st.pos (st.pos + k) = v.take k := by
    intro k hk
    unfold jsSubstring
    rw [hdrop, show st.pos + k - st.pos = k from by omega]
    exact List.take_append_of_le_length hk
  rcases hv.2 with ⟨hfmt, hlv⟩ | ⟨hfmt, L, data, hvdef, hLmax, hL99, hdata⟩ |
    ⟨hfmt, L, data, hvdef, hLmax, hL999, hdata⟩
  · -- FIXED
    have hsuff : st.pos + fixedHexLen spec ≤ hex.length := by
      rw [← hlv]
      exact hfit
    have hchunk : jsSubstring hex st.pos (st.pos + fixedHexLen spec) = v := by
      rw [← hlv, hsub v.length (le_refl _)]
      exact List.take_length v
    refine ⟨mkField f spec v (fixedValue spec v) (fixedHexLen spec / 2) st.pos
      (st.pos + fixedHexLen spec),
      mkFieldSeg f spec v st.pos (st.pos + fixedHexLen spec), ?_, rfl, ?_⟩
    · rw [fieldStep_fixed_ok specs hex f st spec hspec hfmt hpos hsuff, hchunk, hlv]
    · show fixedValue spec v = decodeExpected spec v
      exact fixedValue_decodeExpected spec v hfmt
  · -- LLVAR
    have hlenv : v.length = 2 + data.length := by
      rw [hvdef]
      simp [encodeDec2]
      omega
    have hpre : st.pos + 2 ≤ hex.length := by omega
    have hlenStr : jsSubstring hex st.pos (st.pos + 2) = encodeDec2 L := by
      rw [hsub 2 (by omega), hvdef]
      rw [show (2 : Nat) = (encodeDec2 L).length from rfl]
      exact List.take_left (encodeDec2 L) data
    have hparse : jsParseIntDec (jsSubstring hex st.pos (st.pos + 2)) = some L := by
      rw [hlenStr]
      exact jsParseIntDec_encodeDec2 L hL99
    have hvar : varHexLen spec.type L = data.length := hdata.symm
    have hdataend : st.pos + 2 + varHexLen spec.type L ≤ hex.length := by
      rw [hvar]
      omega
    have hdd : (hex.drop st.pos).drop 2 = hex.drop (st.pos + 2) :=
      List.drop_drop 2 st.pos hex
    have hdrop2 : hex.drop (st.pos + 2) = data ++ tail := by
      rw [← hdd, hdrop, hvdef,
        List.append_assoc, show (2 : Nat) = (encodeDec2 L).length from rfl]
      exact List.drop_left (encodeDec2 L) (data ++ tail)
    have hdatahex : jsSubstring hex (st.pos + 2) (st.pos + 2 + varHexLen spec.type L) =
        data := by
      unfold jsSubstring
      rw [show st.pos + 2 + varHexLen spec.type L - (st.pos + 2) =
        varHexLen spec.type L from by omega, hdrop2, hvar]
      exact List.take_left data tail
    have hvalhex : jsSubstring hex
        (st.pos + 2 + varHexLen spec.type L - varHexLen spec.type L)
        (st.pos + 2 + varHexLen spec.type L) = data := by
      rw [show st.pos + 2 + varHexLen spec.type L - varHexLen spec.type L =
        st.pos + 2 from by omega]
      exact hdatahex
    refine ⟨mkField f spec
      (jsSubstring hex st.pos (st.pos + 2) ++
        jsSubstring hex (st.pos + 2) (st.pos + 2 + varHexLen spec.type L))
      (if spec.type = "n" then data else hexToAscii data)
      L st.pos (st.pos + 2 + varHexLen spec.type L),
      mkFieldSeg f spec
        (jsSubstring hex st.pos (st.pos + 2) ++
          jsSubstring hex (st.pos + 2) (st.pos + 2 + varHexLen spec.type L))
        st.pos (st.pos + 2 + varHexLen spec.type L), ?_, rfl, ?_⟩
    · rw [fieldStep_llvar_ok specs hex f st spec L hspec hfmt hpos hpre hparse hLmax
        hdataend, hvalhex,
        show st.pos + v.length = st.pos + 2 + varHexLen spec.type L from by
          rw [hlenv, hvar]
          omega]
    · show (if spec.type = "n" then data else hexToAscii data) = decodeExpected spec v
      have hdropv : v.drop 2 = data := by
        rw [hvdef, show (2 : Nat) = (encodeDec2 L).length from rfl]
        exact List.drop_left (encodeDec2 L) data
      unfold decodeExpected
      rw [hfmt, hdropv]
      simp
  · -- LLLVAR
    have hlenv : v.length = 4 + data.length := by
      rw [hvdef]
      simp [encodeDec4]
      omega
    have hpre : st.pos + 4 ≤ hex.length := by omega
    have hlenStr : jsSubstring hex st.pos (st.pos + 4) = encodeDec4 L := by
      rw [hsub 4 (by omega), hvdef]
      rw [show (4 : Nat) = (encodeDec4 L).length from rfl]
      exact List.take_left (encodeDec4 L) data
    have hparse : jsParseIntDec (jsSubstring hex st.pos (st.pos + 4)) = some L := by
      rw [hlenStr]
      exact jsParseIntDec_encodeDec4 L hL999
    have hvar : varHexLen spec.type L = data.length := hdata.symm
    have hdataend : st.pos + 4 + varHexLen spec.type L ≤ hex.length := by
      rw [hvar]
      omega
    have hdd : (hex.drop st.pos).drop 4 = hex.drop (st.pos + 4) :=
      List.drop_drop 4 st.pos hex
    have hdrop4 : hex.drop (st.pos + 4) = data ++ tail := by
      rw [← hdd, hdrop, hvdef,
        List.append_assoc, show (4 : Nat) = (encodeDec4 L).length from rfl]
      exact List.drop_left (encodeDec4 L) (data ++ tail)
    have hdatahex : jsSubstring hex (st.pos + 4) (st.pos + 4 + varHexLen spec.type L) =
        data := by
      unfold jsSubstring
      rw [show st.pos + 4 + varHexLen spec.type L - (st.pos + 4) =
        varHexLen spec.type L from by omega, hdrop4, hvar]
      exact List.take_left data tail
    have hvalhex : jsSubstring hex
        (st.pos + 4 + varHexLen spec.type L - varHexLen spec.type L)
        (st.pos + 4 + varHexLen spec.type L) = data := by
      rw [show st.pos + 4 + varHexLen spec.type L - varHexLen spec.type L =
        st.pos + 4 from by omega]
      exact hdatahex
    refine ⟨mkField f spec
      (jsSubstring hex st.pos (st.pos + 4) ++
        jsSubstring hex (st.pos + 4) (st.pos + 4 + varHexLen spec.type L))
      (if spec.type = "n" then data else hexToAscii data)
      L st.pos (st.pos + 4 + varHexLen spec.type L),
      mkFieldSeg f spec
        (jsSubstring hex st.pos (st.pos + 4) ++
          jsSubstring hex (st.pos + 4) (st.pos + 4 + varHexLen spec.type L))
        st.pos (st.pos + 4 + varHexLen spec.type L), ?_, rfl, ?_⟩
    · rw [fieldStep_lllvar_ok specs hex f st spec L hspec hfmt hpos hpre hparse hLmax
        hdataend, hvalhex,
        show st.pos + v.length = st.pos + 4 + varHexLen spec.type L from by
          rw [hlenv, hvar]
          omega]
    · show (if spec.type = "n" then data else hexToAscii data) = decodeExpected spec v
      have hdropv : v.drop 4 = data := by
        rw [hvdef, show (4 : Nat) = (encodeDec4 L).length from rfl]
        exact List.drop_left (encodeDec4 L) data
      unfold decodeExpected
      rw [hfmt, hdropv]
      simp

/-- The field loop over a list of (field, valid payload) items placed
exactly at the cursor consumes the whole stream, adds no errors, and
recovers the items in order. -/
theorem fieldLoop_roundtrip (specs : Nat → Option FieldSpec) (hex : List Char)
    (items : List (Nat × List Char)) :
    ∀ (st : LoopSt),
      (∀ p ∈ items, ∃ spec, specs p.1 = some spec ∧ SpecWF spec ∧
        ValidPayload spec p.2) →
      hex.drop st.pos = (items.map (fun p => p.2)).flatten →
      st.pos ≤ hex.length →
      (fieldLoop specs hex (items.map (fun p => p.1)) st).pos = hex.length ∧
      (fieldLoop specs hex (items.map (fun p => p.1)) st).errors = st.errors ∧
      (fieldLoop specs hex (items.map (fun p => p.1)) st).fields.map
        (fun pf => (pf.de, pf.decodedValue)) =
        st.fields.map (fun pf => (pf.de, pf.decodedValue)) ++
          items.map (expectedPair specs) := by
  induction items with
  | nil =>
    intro st hok hdrop hpos
    have hend : hex.length ≤ st.pos := by
      have h := congrArg List.length hdrop
      rw [List.length_drop] at h
      simp only [List.map_nil, List.flatten_nil, List.length_nil] at h
      omega
    exact ⟨by show st.pos = hex.length; omega, rfl, by simp [fieldLoop]⟩
  | cons p items ih =>
    intro st hok hdrop hpos
    obtain ⟨spec, hspec, hwf, hv⟩ := hok p (List.mem_cons_self p items)
    have hdrop' : hex.drop st.pos = p.2 ++ (items.map (fun q => q.2)).flatten := by
      rw [hdrop]
      simp
    obtain ⟨pf, sg, hstep, hde, hval⟩ :=
      fieldStep_valid_payload specs hex p.1 st spec p.2 _ hspec hwf hv hdrop'
    simp only [List.map_cons]
    rw [fieldLoop_cons_continue specs hex p.1 _ st _ hstep]
    have hpos' : st.pos + p.2.length ≤ hex.length := by
      have h := congrArg List.length hdrop'
      rw [List.length_drop, List.length_append] at h
      omega
    have hdropnext : hex.drop (st.pos + p.2.length) =
        (items.map (fun q => q.2)).flatten := by
      have hdd : (hex.drop st.pos).drop p.2.length = hex.drop (st.pos + p.2.length) :=
        List.drop_drop p.2.length st.pos hex
      rw [← hdd, hdrop']
      exact List.drop_left p.2 _
    obtain ⟨h1, h2, h3⟩ := ih
      { pos := st.pos + p.2.length, errors := st.errors,
        fields := st.fields ++ [pf], segments := st.segments ++ [sg] }
      (fun q hq => hok q (List.mem_cons_of_mem p hq)) hdropnext hpos'
    refine ⟨h1, by rw [h2], ?_⟩
    rw [h3]
    show (st.fields ++ [pf]).map (fun pf => (pf.de, pf.decodedValue)) ++
        items.map (expectedPair specs) =
      st.fields.map (fun pf => (pf.de, pf.decodedValue)) ++
        (expectedPair specs p :: items.map (expectedPair specs))
    rw [List.map_append, List.append_assoc]
    congr 1
    show ((pf.de, pf.decodedValue) :: []) ++ items.map (expectedPair specs) = _
    rw [List.singleton_append]
    congr 1
    rw [hde, hval]
    unfold expectedPair
    rw [hspec]

theorem ofBits_lt (l : List Bool) : ofBits l < 2 ^ l.length := by
  have key : ∀ (l : List Bool) (acc : Nat),
      l.foldl (fun a x => 2 * a + cond x 1 0) acc < (acc + 1) * 2 ^ l.length := by
    intro l
    induction l with
    | nil => intro acc; simp
    | cons b rest ih =>
      intro acc
      have h1 := ih (2 * acc + cond b 1 0)
      have h2 : (2 * acc + cond b 1 0 + 1) * 2 ^ rest.length ≤
          (acc + 1) * 2 ^ (rest.length + 1) := by
        have hb : cond b 1 0 ≤ 1 := by cases b <;> simp
        have : 2 * acc + cond b 1 0 + 1 ≤ 2 * (acc + 1) := by omega
        calc (2 * acc + cond b 1 0 + 1) * 2 ^ rest.length
            ≤ 2 * (acc + 1) * 2 ^ rest.length :=
              Nat.mul_le_mul_right _ this
          _ = (acc + 1) * 2 ^ (rest.length + 1) := by ring
      calc (b :: rest).foldl (fun a x => 2 * a + cond x 1 0) acc
          = rest.foldl (fun a x => 2 * a + cond x 1 0) (2 * acc + cond b 1 0) := rfl
        _ < (2 * acc + cond b 1 0 + 1) * 2 ^ rest.length := h1
        _ ≤ (acc + 1) * 2 ^ (rest.length + 1) := h2
  have := key l 0
  simpa using this

theorem hexDigitCharUpper_upperHex (v : Nat) (h : v ≤ 15) :
    isUpperHex (hexDigitCharUpper v) = true := by
  interval_cases v <;> decide

theorem byteHex_upperHex (b : Nat) (h : b < 256) :
    ∀ c ∈ byteHex b, isUpperHex c = true := by
  intro c hc
  unfold byteHex at hc
  simp only [List.mem_cons, List.not_mem_nil, or_false] at hc
  rcases hc with hc | hc
  · rw [hc]
    exact hexDigitCharUpper_upperHex (b / 16) (by omega)
  · rw [hc]
    exact hexDigitCharUpper_upperHex (b % 16) (by omega)

theorem packBitmapHex_upperHex (bit : Nat → Bool) :
    (packBitmapHex bit).all isUpperHex = true := by
  rw [List.all_eq_true]
  intro c hc
  unfold packBitmapHex at hc
  rw [List.mem_flatMap] at hc
  obtain ⟨i, -, hc⟩ := hc
  refine byteHex_upperHex _ ?_ c hc
  have := ofBits_lt ((List.range 8).map fun b => bit (8 * i + b))
  simpa using this

theorem packBitmapHex_length (bit : Nat → Bool) :
    (packBitmapHex bit).length = 16 := rfl

theorem buildBitmap_length (fs : List Nat) : (buildBitmap fs).length = 16 := rfl

theorem buildBitmap_upperHex (fs : List Nat) :
    (buildBitmap fs).all isUpperHex = true :=
  packBitmapHex_upperHex _

theorem sorted_split_64 (fs : List Nat) (hs : List.Sorted (· < ·) fs) :
    fs.filter (· ≤ 64) ++ fs.filter (fun f => 64 < f) = fs := by
  induction fs with
  | nil => rfl
  | cons a fs ih =>
    have hcons := List.sorted_cons.mp hs
    by_cases h64 : a ≤ 64
    · rw [List.filter_cons_of_pos (by simpa using h64),
        List.filter_cons_of_neg (by simpa using h64)]
      rw [List.cons_append, ih hcons.2]
    · rw [List.filter_cons_of_neg (by simpa using h64),
        List.filter_cons_of_pos (by simpa using h64)]
      have hnil : fs.filter (· ≤ 64) = [] := by
        rw [List.filter_eq_nil_iff]
        intro b hb
        have := hcons.1 b hb
        simp only [decide_eq_true_eq]
        omega
      have hself : fs.filter (fun f => 64 < f) = fs := by
        rw [List.filter_eq_self]
        intro b hb
        have := hcons.1 b hb
        simp only [decide_eq_true_eq]
        omega
      rw [hnil, hself]
      rfl

theorem contains_append_one (fs : List Nat) (x : Nat) :
    (fs ++ [1]).contains x = (1 :: fs).contains x := by
  cases hc : (1 :: fs).contains x with
  | true =>
    rw [nat_contains_iff] at hc
    rw [nat_contains_iff]
    rcases List.mem_cons.mp hc with h | h
    · exact List.mem_append.mpr (Or.inr (by simp [h]))
    · exact List.mem_append.mpr (Or.inl h)
  | false =>
    cases hc2 : (fs ++ [1]).contains x with
    | false => rfl
    | true =>
      exfalso
      rw [nat_contains_iff] at hc2
      have hx : x ∈ 1 :: fs := by
        rcases List.mem_append.mp hc2 with h | h
        · exact List.mem_cons_of_mem _ h
        · simp only [List.mem_singleton] at h
          simp [h]
      rw [← nat_contains_iff] at hx
      rw [hx] at hc
      cases hc

theorem buildDualBitmap_primary_only (fs : List Nat)
    (h : fs.filter (fun f => 64 < f) = []) :
    buildDualBitmap fs = buildBitmap (fs.filter (· ≤ 64)) := by
  unfold buildDualBitmap dualPrimaryFields
  rw [h]
  simp

theorem buildDualBitmap_dual (fs : List Nat)
    (h : ¬fs.filter (fun f => 64 < f) = [])
    (h1 : (fs.filter (· ≤ 64)).contains 1 = false) :
    buildDualBitmap fs = buildBitmap (fs.filter (· ≤ 64) ++ [1]) ++
      packBitmapHex (fun i => (fs.filter (fun f => 64 < f)).contains (i + 65)) := by
  have hne : ¬(fs.filter (fun f => 64 < f)).isEmpty = true := by
    intro hi
    exact h (List.isEmpty_iff.mp hi)
  have hcond : ¬(fs.filter fun f => 64 < f).isEmpty = true ∧
      ¬(fs.filter (· ≤ 64)).contains 1 = true :=
    ⟨hne, by rw [h1]; exact Bool.false_ne_true⟩
  unfold buildDualBitmap dualPrimaryFields
  rw [if_neg hne, if_pos hcond]

theorem flatten_all_upperHex (L : List (List Char))
    (h : ∀ v ∈ L, v.all isUpperHex = true) :
    L.flatten.all isUpperHex = true := by
  rw [List.all_eq_true]
  intro c hc
  rw [List.mem_flatten] at hc
  obtain ⟨v, hv, hc⟩ := hc
  exact List.all_eq_true.mp (h v hv) c hc

theorem finalize_no_trailing (hex : List Char) (m : Option MTIInfo)
    (pb sb : Option BitmapInfo) (st : LoopSt) (h : st.pos = hex.length) :
    (finalize hex m pb sb st).fields = st.fields ∧
    (finalize hex m pb sb st).errors = st.errors ∧
    (finalize hex m pb sb st).success =
      (st.errors.filter fun e => !errExcluded e).isEmpty := by
  unfold finalize
  rw [if_neg (by omega)]
  exact ⟨rfl, rfl, rfl⟩

theorem contains_eq_false_of_not_mem (l : List Nat) (x : Nat) (h : x ∉ l) :
    l.contains x = false := by
  cases hc : l.contains x with
  | false => rfl
  | true => exact absurd ((nat_contains_iff l x).mp hc) h

theorem buildDualBitmap_upperHex (fs : List Nat) :
    (buildDualBitmap fs).all isUpperHex = true := by
  unfold buildDualBitmap
  split
  · exact buildBitmap_upperHex _
  · rw [List.all_append]
    rw [buildBitmap_upperHex, packBitmapHex_upperHex]
    rfl

/-- Claim C3 (confirmed, under well-formedness of the involved table
entries): for every well-formed message constructed by choosing field
numbers with specifications, building the bitmap(s) with the preset
module's `buildDualBitmap`, and concatenating a valid payload per field,
`parseISO8583` recovers exactly the chosen field numbers in ascending
order (primary-bitmap fields before secondary-bitmap fields) with each
decoded value equal to the payload written — byte-for-byte hex for
numeric/binary types, the printable conversion for text types — with no
errors and `overallSuccess = true`. -/
theorem claim3_roundtrip (specs : Nat → Option FieldSpec) (t : MTITables)
    (mtiHex : List Char) (items : List (Nat × List Char))
    (hmtilen : mtiHex.length = 4)
    (hmtihex : mtiHex.all isUpperHex = true)
    (hsort : List.Sorted (· < ·) (items.map (fun p => p.1)))
    (hrange : ∀ p ∈ items, 2 ≤ p.1 ∧ p.1 ≤ 128)
    (hok : ∀ p ∈ items, ∃ spec, specs p.1 = some spec ∧ SpecWF spec ∧
      ValidPayload spec p.2) :
    (parseISO8583 specs t (mtiHex ++ buildDualBitmap (items.map (fun p => p.1)) ++
        (items.map (fun p => p.2)).flatten)).fields.map
      (fun pf => (pf.de, pf.decodedValue)) = items.map (expectedPair specs) ∧
    (parseISO8583 specs t (mtiHex ++ buildDualBitmap (items.map (fun p => p.1)) ++
        (items.map (fun p => p.2)).flatten)).errors = [] ∧
    (parseISO8583 specs t (mtiHex ++ buildDualBitmap (items.map (fun p => p.1)) ++
        (items.map (fun p => p.2)).flatten)).success = true := by
  set fs := items.map (fun p => p.1) with hfsdef
  set pay := (items.map (fun p => p.2)).flatten with hpaydef
  set bm := buildDualBitmap fs with hbmdef
  set W : List Char := mtiHex ++ bm ++ pay with hWdef
  -- range facts transported to fs
  have hfsrange : ∀ f ∈ fs, 2 ≤ f ∧ f ≤ 128 := by
    intro f hf
    rw [hfsdef, List.mem_map] at hf
    obtain ⟨p, hp, hpf⟩ := hf
    rw [← hpf]
    exact hrange p hp
  -- the wire is upper-case hex
  have hpayhex : pay.all isUpperHex = true := by
    rw [hpaydef]
    refine flatten_all_upperHex _ ?_
    intro v hv
    rw [List.mem_map] at hv
    obtain ⟨p, hp, hpv⟩ := hv
    obtain ⟨spec, -, -, hvp⟩ := hok p hp
    rw [← hpv]
    exact hvp.1
  have hall : W.all isUpperHex = true := by
    rw [hWdef, List.all_append, List.all_append, hmtihex, hpayhex,
      hbmdef, buildDualBitmap_upperHex]
    rfl
  have hnorm : normalizeHex W = W := normalizeHex_of_upperHex W hall
  have hhexchar : W.all isHexChar = true := by
    rw [List.all_eq_true] at hall ⊢
    exact fun c hc => upperHex_isHexChar c (hall c hc)
  -- the single non-trivial split: are there secondary fields?
  by_cases hcase : fs.filter (fun f => 64 < f) = []
  · -- primary-bitmap-only message
    have hle64 : ∀ f ∈ fs, f ≤ 64 := by
      intro f hf
      have := List.filter_eq_nil_iff.mp hcase f hf
      simp only [decide_eq_true_eq] at this
      omega
    have hbmA : bm = buildBitmap fs := by
      rw [hbmdef, buildDualBitmap_primary_only fs hcase, List.filter_eq_self.mpr]
      intro f hf
      simp only [decide_eq_true_eq]
      exact hle64 f hf
    have hbmlen : bm.length = 16 := by rw [hbmA, buildBitmap_length]
    have hWlen : W.length = 20 + pay.length := by
      rw [hWdef]
      simp only [List.length_append, hmtilen, hbmlen]
    have hdrop4 : W.drop 4 = bm ++ pay := by
      rw [hWdef, List.append_assoc, ← hmtilen]
      exact List.drop_left mtiHex (bm ++ pay)
    have hsub420 : jsSubstring W 4 20 = buildBitmap fs := by
      unfold jsSubstring
      rw [hdrop4, show (20 : Nat) - 4 = 16 from rfl, ← hbmlen,
        List.take_left bm pay, hbmA]
    have hcontains1 : fs.contains 1 = false :=
      contains_eq_false_of_not_mem fs 1 fun hmem => by
        have := hfsrange 1 hmem
        omega
    have hps : (primaryBitmapOf W).hasSecondary = false := by
      show ((decodeBitmap (jsSubstring W 4 20)).binary.get? 0 == some '1') = false
      rw [hsub420]
      unfold buildBitmap
      rw [decodeBitmap_pack_get0, hcontains1]
      rfl
    have hactive : (primaryBitmapOf W).activeFields = fs := by
      show ((decodeBitmap (jsSubstring W 4 20)).activeFields).filter
        (fun f => 2 ≤ f && f ≤ 64) = fs
      rw [hsub420, decodeBitmap_buildBitmap fs hsort (fun f hf =>
        ⟨by have := hfsrange f hf; omega, hle64 f hf⟩)]
      rw [List.filter_eq_self.mpr]
      intro f hf
      have h2 := hfsrange f hf
      have h64 := hle64 f hf
      simp only [Bool.and_eq_true, decide_eq_true_eq]
      omega
    have hdrop20 : W.drop 20 = pay := by
      have hdd : (W.drop 4).drop 16 = W.drop 20 := List.drop_drop 16 4 W
      rw [← hdd, hdrop4, ← hbmlen]
      exact List.drop_left bm pay
    -- run the parser
    rw [parseISO8583_eq_parseMain specs t W (by rw [hnorm]; omega)
      (by rw [hnorm]; exact hhexchar), hnorm]
    unfold parseMain
    rw [if_neg (by omega), if_neg (by rw [hps]; exact Bool.false_ne_true)]
    obtain ⟨hlpos, hlerrs, hlfields⟩ := fieldLoop_roundtrip specs W items
      ⟨20, [], [], [mtiSegOf t W, pbSegOf W]⟩ hok (by rw [← hpaydef]; exact hdrop20)
      (by show (20 : Nat) ≤ W.length; omega)
    rw [hactive, hfsdef] at *
    obtain ⟨hffields, hferrs, hfsucc⟩ := finalize_no_trailing W
      (some (mtiOf t W)) (some (primaryBitmapOf W)) none _ hlpos
    refine ⟨?_, ?_, ?_⟩
    · rw [hffields, hlfields]
      rfl
    · rw [hferrs, hlerrs]
    · rw [hfsucc, hlerrs]
      rfl
  · -- message with a secondary bitmap
    have hlo_mem : ∀ f ∈ fs.filter (· ≤ 64), 2 ≤ f ∧ f ≤ 64 := by
      intro f hf
      rw [List.mem_filter] at hf
      have h1 := hfsrange f hf.1
      have h2 := hf.2
      simp only [decide_eq_true_eq] at h2
      omega
    have hhi_mem : ∀ f ∈ fs.filter (fun f => 64 < f), 65 ≤ f ∧ f ≤ 128 := by
      intro f hf
      rw [List.mem_filter] at hf
      have h1 := hfsrange f hf.1
      have h2 := hf.2
      simp only [decide_eq_true_eq] at h2
      omega
    have hlosorted : List.Sorted (· < ·) (fs.filter (· ≤ 64)) :=
      List.Pairwise.filter _ hsort
    have hhisorted : List.Sorted (· < ·) (fs.filter (fun f => 64 < f)) :=
      List.Pairwise.filter _ hsort
    have h1notin : (fs.filter (· ≤ 64)).contains 1 = false :=
      contains_eq_false_of_not_mem _ 1 fun hmem => by
        have := hlo_mem 1 hmem
        omega
    have hbmB : bm = buildBitmap (fs.filter (· ≤ 64) ++ [1]) ++
        packBitmapHex (fun i => (fs.filter (fun f => 64 < f)).contains (i + 65)) := by
      rw [hbmdef]
      exact buildDualBitmap_dual fs hcase h1notin
    have hbmlen : bm.length = 32 := by
      rw [hbmB, List.length_append, buildBitmap_length, packBitmapHex_length]
    have hWlen : W.length = 36 + pay.length := by
      rw [hWdef]
      simp only [List.length_append, hmtilen, hbmlen]
    have hdrop4 : W.drop 4 = buildBitmap (fs.filter (· ≤ 64) ++ [1]) ++
        (packBitmapHex (fun i => (fs.filter (fun f => 64 < f)).contains (i + 65)) ++
          pay) := by
      rw [hWdef, List.append_assoc, ← hmtilen, List.drop_left mtiHex (bm ++ pay),
        hbmB, List.append_assoc]
    have hsub420 : jsSubstring W 4 20 = buildBitmap (fs.filter (· ≤ 64) ++ [1]) := by
      unfold jsSubstring
      rw [hdrop4, show (20 : Nat) - 4 = 16 from rfl,
        show (16 : Nat) = (buildBitmap (fs.filter (· ≤ 64) ++ [1])).length from
          (buildBitmap_length _).symm]
      exact List.take_left _ _
    have hbuild1 : buildBitmap (fs.filter (· ≤ 64) ++ [1]) =
        buildBitmap (1 :: fs.filter (· ≤ 64)) :=
      congrArg packBitmapHex (funext fun i => contains_append_one _ (i + 1))
    have hps : (primaryBitmapOf W).hasSecondary = true := by
      show ((decodeBitmap (jsSubstring W 4 20)).binary.get? 0 == some '1') = true
      rw [hsub420, hbuild1]
      unfold buildBitmap
      rw [decodeBitmap_pack_get0]
      have : (1 :: fs.filter (· ≤ 64)).contains 1 = true := by
        rw [nat_contains_iff]
        exact List.mem_cons_self 1 _
      rw [this]
      rfl
    have hactive : (primaryBitmapOf W).activeFields = fs.filter (· ≤ 64) := by
      show ((decodeBitmap (jsSubstring W 4 20)).activeFields).filter
        (fun f => 2 ≤ f && f ≤ 64) = fs.filter (· ≤ 64)
      rw [hsub420, hbuild1, decodeBitmap_buildBitmap (1 :: fs.filter (· ≤ 64))
        (List.sorted_cons.mpr ⟨fun b hb => by have := hlo_mem b hb; omega, hlosorted⟩)
        (by
          intro f hf
          rcases List.mem_cons.mp hf with h | h
          · omega
          · have := hlo_mem f h
            omega)]
      rw [List.filter_cons_of_neg (by decide)]
      rw [List.filter_eq_self.mpr]
      intro f hf
      have := hlo_mem f hf
      simp only [Bool.and_eq_true, decide_eq_true_eq]
      omega
    have hdrop20 : W.drop 20 =
        packBitmapHex (fun i => (fs.filter (fun f => 64 < f)).contains (i + 65)) ++
          pay := by
      have hdd : (W.drop 4).drop 16 = W.drop 20 := List.drop_drop 16 4 W
      rw [← hdd, hdrop4,
        show (16 : Nat) = (buildBitmap (fs.filter (· ≤ 64) ++ [1])).length from
          (buildBitmap_length _).symm]
      exact List.drop_left _ _
    have hsub2036 : jsSubstring W 20 36 =
        packBitmapHex (fun i => (fs.filter (fun f => 64 < f)).contains (i + 65)) := by
      unfold jsSubstring
      rw [hdrop20, show (36 : Nat) - 20 = 16 from rfl,
        show (16 : Nat) = (packBitmapHex (fun i =>
          (fs.filter (fun f => 64 < f)).contains (i + 65))).length from
          (packBitmapHex_length _).symm]
      exact List.take_left _ _
    have hsactive : (secondaryBitmapOf W).activeFields =
        fs.filter (fun f => 64 < f) := by
      show ((decodeBitmap (jsSubstring W 20 36)).activeFields).map (· + 64) = _
      rw [hsub2036]
      exact decodeBitmap_secondary_pack _ hhisorted hhi_mem
    have hdrop36 : W.drop 36 = pay := by
      have hdd : (W.drop 20).drop 16 = W.drop 36 := List.drop_drop 16 20 W
      rw [← hdd, hdrop20,
        show (16 : Nat) = (packBitmapHex (fun i =>
          (fs.filter (fun f => 64 < f)).contains (i + 65))).length from
          (packBitmapHex_length _).symm]
      exact List.drop_left _ _
    -- run the parser
    rw [parseISO8583_eq_parseMain specs t W (by rw [hnorm]; omega)
      (by rw [hnorm]; exact hhexchar), hnorm]
    unfold parseMain
    rw [if_neg (by omega), if_pos hps, if_neg (by omega)]
    have hallfields : (primaryBitmapOf W).activeFields ++
        (secondaryBitmapOf W).activeFields = fs := by
      rw [hactive, hsactive]
      exact sorted_split_64 fs hsort
    rw [hallfields, hfsdef]
    obtain ⟨hlpos, hlerrs, hlfields⟩ := fieldLoop_roundtrip specs W items
      ⟨36, [], [], [mtiSegOf t W, pbSegOf W, sbSegOf W]⟩ hok
      (by rw [← hpaydef]; exact hdrop36)
      (by show (36 : Nat) ≤ W.length; omega)
    obtain ⟨hffields, hferrs, hfsucc⟩ := finalize_no_trailing W
      (some (mtiOf t W)) (some (primaryBitmapOf W)) (some (secondaryBitmapOf W)) _ hlpos
    refine ⟨?_, ?_, ?_⟩
    · rw [hffields, hlfields]
      rfl
    · rw [hferrs, hlerrs]
    · rw [hfsucc, hlerrs]
      rfl

theorem claim3_roundtrip_witness :
    (parseISO8583 sampleSpecs sampleMTITables ("0100".toList ++
        buildDualBitmap ([(3, "123456".toList), (70, "0301".toList)].map
          (fun p => p.1)) ++
        ([(3, "123456".toList), (70, "0301".toList)].map
          (fun p => p.2)).flatten)).fields.map
      (fun pf => (pf.de, pf.decodedValue)) =
      [(3, "123456".toList), (70, "0301".toList)].map (expectedPair sampleSpecs) ∧
    (parseISO8583 sampleSpecs sampleMTITables ("0100".toList ++
        buildDualBitmap ([(3, "123456".toList), (70, "0301".toList)].map
          (fun p => p.1)) ++
        ([(3, "123456".toList), (70, "0301".toList)].map
          (fun p => p.2)).flatten)).errors = [] ∧
    (parseISO8583 sampleSpecs sampleMTITables ("0100".toList ++
        buildDualBitmap ([(3, "123456".toList), (70, "0301".toList)].map
          (fun p => p.1)) ++
        ([(3, "123456".toList), (70, "0301".toList)].map
          (fun p => p.2)).flatten)).success = true :=
  claim3_roundtrip sampleSpecs sampleMTITables ("0100".toList)
    [(3, "123456".toList), (70, "0301".toList)]
    (by decide) (by decide) (by decide) (by decide)
    (by
      intro p hp
      simp only [List.mem_cons, List.not_mem_nil, or_false] at hp
      rcases hp with h | h
      · subst h
        exact ⟨_, rfl, ⟨by decide, Or.inl rfl, fun hne => absurd rfl hne⟩,
          by decide, Or.inl ⟨rfl, by decide⟩⟩
      · subst h
        exact ⟨_, rfl, ⟨by decide, Or.inl rfl, fun hne => absurd rfl hne⟩,
          by decide, Or.inl ⟨rfl, by decide⟩⟩)

end ISO8583
